import Mathlib

/-! CorgiECS: entity directory and entity facade

A shallow embedding of `include/corgi/ecs/Entity.h`, `include/corgi/ecs/Entities.h`
and `src/Entities.cpp`.

Conventions of the embedding

* A C++ object reached through a reference is passed explicitly. The `Scene`
  argument of the facade operations is the object `scene_` refers to when
  `scene_` holds a reference; the static counter `Entity::unique_id_` is an
  explicit `Int` argument and result of every constructor.
* `int` is `Int`; signed overflow of `unique_id_++` is undefined behaviour in
  C++ and is not modelled.
* Operations that can raise, terminate or run into undefined behaviour return
  `Except Fault _`.
* A component type `T` is identified by its `std::type_info`, a `TypeKey`;
  component values of every type live in one value universe `V`.
* `ComponentPool`, `ComponentPools`, `Scene` and the generic `Tree`/`Node`
  containers are declared in headers that are not part of the sources at hand;
  their definitions below are marked as modelled from the specification.
* An entity object lives in a node of the tree and is reached through a
  `Reference`, its position. A `World` gathers what the operations read and
  write (the static counter, the scene, the directory); a member function
  called through a reference is a function on worlds.
-/

namespace Corgi

/-! ## Finite maps (`std::map`) as association lists -/

/-- Finite map with keys `K` and values `W`, first binding of a key wins. -/
abbrev Map (K W : Type) := List (K × W)

/-- Value bound to `k`, when there is one (`std::map::find`). -/
def Map.lookup {K W : Type} [DecidableEq K] : Map K W → K → Option W
  | [], _ => none
  | (k', w) :: m, k => if k' = k then some w else Map.lookup m k

/-- Membership of a key (`std::map::contains`). -/
def Map.contains {K W : Type} [DecidableEq K] (m : Map K W) (k : K) : Bool :=
  (Map.lookup m k).isSome

/-- Binding of a key that is not yet bound (`std::map::emplace`). -/
def Map.insert {K W : Type} (m : Map K W) (k : K) (w : W) : Map K W :=
  (k, w) :: m

/-- In-place update of the value bound to `k`; no effect when `k` is unbound. -/
def Map.replace {K W : Type} [DecidableEq K] (m : Map K W) (k : K) (w : W) : Map K W :=
  m.map (fun p => if p.1 = k then (k, w) else p)

/-- Removal of every binding of `k` (`std::map::erase`). -/
def Map.erase {K W : Type} [DecidableEq K] (m : Map K W) (k : K) : Map K W :=
  m.filter (fun p => !(decide (p.1 = k)))

/-! ## Failures -/

/-- Ways in which an operation of the core stops without a result. -/
inductive Fault where
  /-- strict pool `add` on an id that already has a slot -/
  | DuplicateComponent
  /-- strict pool `get`/`remove` on an id without a slot -/
  | MissingComponent
  /-- registry `add` for a type that already has a pool -/
  | DuplicatePoolType
  /-- a bare `throw;` with no exception in flight: `std::terminate` -/
  | terminate
  /-- access through an empty `std::optional` or a null pool pointer -/
  | null_access
  /-- a slot index outside the dense sequence -/
  | out_of_range
  deriving DecidableEq, Repr

deriving instance DecidableEq for Except

/-- Runtime identity of a component type (`std::type_info`). -/
abbrev TypeKey := Nat

/-- Identity of a `Scene` object, the target of a `Scene&`. -/
abbrev SceneRef := Nat

/-! ## `Entity` (Entity.h) -/

/-- Member variables of `class Entity`, Entity.h lines 337-343. -/
structure Entity where
  /-- `std::optional<std::reference_wrapper<Scene>> scene_` -/
  scene_ : Option SceneRef
  /-- `Vector<String> tags_` -/
  tags_ : List String
  /-- `String name_` -/
  name_ : String
  /-- `char layer_ = 0` -/
  layer_ : Int
  /-- `bool enabled_ = true` -/
  enabled_ : Bool
  /-- `int id_` -/
  id_ : Int
  /-- `int depth_ = 0` -/
  depth_ : Int
  deriving DecidableEq, Repr

namespace Entity

/-- `Entity(Scene& scene, const String& name = "Unnamed") : scene_(scene), id_(unique_id_) {}`
(lines 58-60). The counter is read, not incremented, and `name` is not stored:
`name_` is default-constructed. Returns the entity and the counter afterwards. -/
def Entity_scene_name (unique_id_ : Int) (scene : SceneRef) (_name : String) : Entity × Int :=
  ({ scene_ := some scene, tags_ := [], name_ := "", layer_ := 0, enabled_ := true,
     id_ := unique_id_, depth_ := 0 }, unique_id_)

/-- `Entity(Scene& scene, Entity& entity) : scene_(scene), id_(unique_id_++)` (lines 65-70). -/
def Entity_scene_copy (unique_id_ : Int) (scene : SceneRef) (_entity : Entity) : Entity × Int :=
  ({ scene_ := some scene, tags_ := [], name_ := "", layer_ := 0, enabled_ := true,
     id_ := unique_id_, depth_ := 0 }, unique_id_ + 1)

/-- `Entity(Scene& scene, Entity&& entity) : scene_(scene), id_(unique_id_++) {}` (lines 75-77). -/
def Entity_scene_move (unique_id_ : Int) (scene : SceneRef) (_entity : Entity) : Entity × Int :=
  ({ scene_ := some scene, tags_ := [], name_ := "", layer_ := 0, enabled_ := true,
     id_ := unique_id_, depth_ := 0 }, unique_id_ + 1)

/-- `Entity(Scene& scene) : id_(unique_id_++), scene_(scene) {}` (lines 79-81). -/
def Entity_scene (unique_id_ : Int) (scene : SceneRef) : Entity × Int :=
  ({ scene_ := some scene, tags_ := [], name_ := "", layer_ := 0, enabled_ := true,
     id_ := unique_id_, depth_ := 0 }, unique_id_ + 1)

/-- `void copy(const Entity& e)` (lines 345-350): enabled, layer and name. -/
def copy (self e : Entity) : Entity :=
  { self with enabled_ := e.enabled_, layer_ := e.layer_, name_ := e.name_ }

/-- `void move(Entity&& e)` (lines 352-358): tags, name, layer and enabled. -/
def move (self e : Entity) : Entity :=
  { self with tags_ := e.tags_, name_ := e.name_, layer_ := e.layer_, enabled_ := e.enabled_ }

/-- The object before a constructor body runs when the constructor has no
member initialiser list: default member initialisers apply, `scene_` is empty
and `id_`, which has no initialiser, holds the indeterminate value `garbage`. -/
def uninitialised (garbage : Int) : Entity :=
  { scene_ := none, tags_ := [], name_ := "", layer_ := 0, enabled_ := true,
    id_ := garbage, depth_ := 0 }

/-- `Entity(Entity&& entity) noexcept { move(std::move(entity)); }` (lines 83-86). -/
def Entity_move (garbage : Int) (entity : Entity) : Entity :=
  move (uninitialised garbage) entity

/-- `Entity(const Entity& entity) { copy(entity); }` (lines 88-91). -/
def Entity_copy (garbage : Int) (entity : Entity) : Entity :=
  copy (uninitialised garbage) entity

/-- `int id() const noexcept` (lines 112-115). -/
def id (e : Entity) : Int := e.id_

/-- `const String& name() const` (lines 125-128). -/
def name (e : Entity) : String := e.name_

/-- `void name(const String& n)` (lines 130-133). -/
def set_name (e : Entity) (n : String) : Entity := { e with name_ := n }

/-- `bool is_enabled() const noexcept` (lines 149-152). -/
def is_enabled (e : Entity) : Bool := e.enabled_

/-- `int depth() const` (lines 307-310). -/
def depth (e : Entity) : Int := e.depth_

end Entity

/-! ## Component pools, the pool registry and the scene -/

/-- Modelled from the spec: `ComponentPool<T>` (its header is absent), spec section 3:
a dense sequence of values, an entity-id to slot-index map (sparse) and a
slot-index to entity-id back-map (dense). -/
structure ComponentPool (V : Type) where
  /-- dense sequence of component values -/
  dense_ : List V
  /-- sparse map, entity id to slot index -/
  sparse_ : Map Int Nat
  /-- dense back-map, slot index to entity id -/
  back_ : List Int
  deriving DecidableEq, Repr

namespace ComponentPool

variable {V : Type}

/-- Modelled from the spec: a pool holding no component (what the registry
creates on `add`). -/
def empty : ComponentPool V := { dense_ := [], sparse_ := [], back_ := [] }

/-- Modelled from the spec: `has(id) -> boolean`, total, never fails (section 4.1);
called `has_component` at the call sites in Entity.h. -/
def has_component (p : ComponentPool V) (id : Int) : Bool :=
  Map.contains p.sparse_ id

/-- Modelled from the spec: `get(id) -> reference`, fails with `MissingComponent`
if absent (section 4.1). -/
def get (p : ComponentPool V) (id : Int) : Except Fault V :=
  match Map.lookup p.sparse_ id with
  | none => .error .MissingComponent
  | some slot =>
    match p.dense_[slot]? with
    | none => .error .out_of_range
    | some v => .ok v

/-- Modelled from the spec: `add(id, value) -> reference`, fails with
`DuplicateComponent` if `id` already has a slot; otherwise appends to the dense
sequence, records the bijection and returns the stored value (section 4.1). -/
def add (p : ComponentPool V) (id : Int) (value : V) : Except Fault (ComponentPool V × V) :=
  if p.has_component id then .error .DuplicateComponent
  else .ok ({ dense_ := p.dense_ ++ [value],
              sparse_ := Map.insert p.sparse_ id p.dense_.length,
              back_ := p.back_ ++ [id] }, value)

/-- Modelled from the spec: `add_constructed(id, args...)`, same as `add` but the
value is constructed in place (section 4.1); called `add_param(*this, args...)`
in Entity.h, which hands over the entity. `value` is the object `T(args...)`. -/
def add_param (p : ComponentPool V) (entity : Entity) (value : V) :
    Except Fault (ComponentPool V × V) :=
  p.add entity.id_ value

/-- Modelled from the spec: `remove(id)`, fails with `MissingComponent` if absent;
on success swaps the last dense element into the freed slot (unless it is the
last), updates the relocated element's sparse entry, shrinks the dense sequence
by one and removes the id's sparse entry (section 4.1). -/
def remove (p : ComponentPool V) (id : Int) : Except Fault (ComponentPool V) :=
  match Map.lookup p.sparse_ id with
  | none => .error .MissingComponent
  | some slot =>
    let last := p.dense_.length - 1
    if slot = last then
      .ok { dense_ := p.dense_.dropLast,
            sparse_ := Map.erase p.sparse_ id,
            back_ := p.back_.dropLast }
    else
      match p.dense_[last]?, p.back_[last]? with
      | some v, some moved =>
        .ok { dense_ := (p.dense_.set slot v).dropLast,
              sparse_ := Map.erase (Map.replace p.sparse_ moved slot) id,
              back_ := (p.back_.set slot moved).dropLast }
      | _, _ => .error .out_of_range

end ComponentPool

/-- Modelled from the spec: `PoolRegistry` (its header is absent), a mapping from
a type key to an owning pool instance (section 3); reached as `pools()` in
Entity.h. -/
structure ComponentPools (V : Type) where
  /-- one pool per registered component type -/
  pools_ : Map TypeKey (ComponentPool V)
  deriving DecidableEq, Repr

namespace ComponentPools

variable {V : Type}

/-- Modelled from the spec: `contains(type) -> boolean` (section 4.2). -/
def contains (r : ComponentPools V) (t : TypeKey) : Bool :=
  Map.contains r.pools_ t

/-- Modelled from the spec: `get(type) -> pool-handle or absent` (section 4.2); a null
pointer is `none`. -/
def get (r : ComponentPools V) (t : TypeKey) : Option (ComponentPool V) :=
  Map.lookup r.pools_ t

/-- Modelled from the spec: `add(type)`, fails with `DuplicatePoolType` if one
already exists for that type (section 4.2); the new pool is empty. -/
def add (r : ComponentPools V) (t : TypeKey) : Except Fault (ComponentPools V) :=
  if r.contains t then .error .DuplicatePoolType
  else .ok { pools_ := Map.insert r.pools_ t ComponentPool.empty }

/-- The effect on the registry of mutating, through the pointer returned by
`get`, the pool registered for `t`: that pool now is `p`. -/
def store (r : ComponentPools V) (t : TypeKey) (p : ComponentPool V) : ComponentPools V :=
  { pools_ := Map.replace r.pools_ t p }

end ComponentPools

/-- Modelled from the spec: the scene context (Scene.h is absent) as far as the
entity facade uses it, `pools()` giving the pool registry (section 6). -/
structure Scene (V : Type) where
  /-- the registry returned by `pools()` -/
  pools_ : ComponentPools V
  deriving DecidableEq, Repr

/-- Accessor `Scene::pools()`. -/
def Scene.pools {V : Type} (s : Scene V) : ComponentPools V := s.pools_

/-! ## The entity facade (Entity.h lines 159-274) -/

namespace Entity

variable {V : Type}

/-- Lines 162-165 of Entity.h, shared by both `add_component` overloads:
`if (!pools().contains<T>()) { pools().add<T>(); }`. -/
def ensure_pool (r : ComponentPools V) (T : TypeKey) : Except Fault (ComponentPools V) :=
  if !r.contains T then r.add T else .ok r

/-- `template<class T> T& add_component(T&& copy)` (lines 159-167): the pool is
created when missing, then the pool's strict `add(id_, copy)` is called. The
result is the scene afterwards and the component returned. -/
def add_component (e : Entity) (s : Scene V) (T : TypeKey) (copy : V) :
    Except Fault (Scene V × V) :=
  match e.scene_ with
  | none => .error .null_access
  | some _ =>
    match ensure_pool s.pools T with
    | .error f => .error f
    | .ok r =>
      match r.get T with
      | none => .error .null_access
      | some pool =>
        match pool.add e.id_ copy with
        | .error f => .error f
        | .ok (pool', c) => .ok ({ s with pools_ := r.store T pool' }, c)

/-- `template<class T, class ...Args> T& add_component(Args&& ... args)`
(lines 169-190): the pool is created when missing; when the pool already has a
component for `id()` the existing one is returned (after a warning), otherwise
`add_param(*this, args...)` is called. `value` is the object `T(args...)`. -/
def add_component_args (e : Entity) (s : Scene V) (T : TypeKey) (value : V) :
    Except Fault (Scene V × V) :=
  match e.scene_ with
  | none => .error .null_access
  | some _ =>
    match ensure_pool s.pools T with
    | .error f => .error f
    | .ok r =>
      match r.get T with
      | none => .error .null_access
      | some pool =>
        if pool.has_component e.id then
          match pool.get e.id with
          | .error f => .error f
          | .ok c => .ok ({ s with pools_ := r }, c)
        else
          match pool.add_param e value with
          | .error f => .error f
          | .ok (pool', c) => .ok ({ s with pools_ := r.store T pool' }, c)

/-- `bool has_component(const std::type_info& component_type) const`
(lines 200-208), which `has_component<T>()` forwards to. -/
def has_component (e : Entity) (s : Scene V) (component_type : TypeKey) : Except Fault Bool :=
  match e.scene_ with
  | none => .error .null_access
  | some _ =>
    if !s.pools.contains component_type then .ok false
    else
      match s.pools.get component_type with
      | none => .error .null_access
      | some pool => .ok (pool.has_component e.id_)

/-- `template<class T> T& get_component()` (lines 210-228): `throw;` when the
registry has no pool for `T`, `throw;` when the pool has no component for
`id_`, otherwise `pool.get(id_)`. -/
def get_component (e : Entity) (s : Scene V) (T : TypeKey) : Except Fault V :=
  match e.scene_ with
  | none => .error .null_access
  | some _ =>
    if !s.pools.contains T then .error .terminate
    else
      match s.pools.get T with
      | none => .error .null_access
      | some pool =>
        if !pool.has_component e.id_ then .error .terminate
        else pool.get e.id_

/-- `void remove_component(const std::type_info& component_type)`
(lines 254-267), which `remove_component<T>()` forwards to: return when the
registry has no pool, return when `has_component` is false, otherwise the
pool's strict `remove(id_)`. -/
def remove_component (e : Entity) (s : Scene V) (component_type : TypeKey) :
    Except Fault (Scene V) :=
  match e.scene_ with
  | none => .error .null_access
  | some _ =>
    if !s.pools.contains component_type then .ok s
    else
      match e.has_component s component_type with
      | .error f => .error f
      | .ok false => .ok s
      | .ok true =>
        match s.pools.get component_type with
        | none => .error .null_access
        | some pool =>
          match pool.remove e.id_ with
          | .error f => .error f
          | .ok pool' => .ok { s with pools_ := s.pools.store component_type pool' }

end Entity

/-! ## The hierarchy tree (Tree.h, absent) and `Entities` (Entities.h, Entities.cpp) -/

/-- Modelled from the spec: `Node<Entity>` of the absent Tree.h, a node wrapping
exactly one entity and owning its child nodes (sections 2 and 3). -/
inductive Node where
  | mk (value_ : Entity) (children_ : List Node)
  deriving Repr

namespace Node

/-- The entity a node wraps, `Node<Entity>::get()` as used in Entities.cpp. -/
def get : Node → Entity
  | .mk value_ _ => value_

/-- The child nodes a node owns. -/
def children : Node → List Node
  | .mk _ children_ => children_

end Node

mutual
/-- Modelled from the spec: traversal order of the absent tree iterator, pre-order,
parent before children (section 4.3), for the subtree of one node. -/
def Node.traversal : Node → List Node
  | .mk value_ children_ => Node.mk value_ children_ :: traversal_forest children_
/-- Modelled from the spec: pre-order traversal of a list of sibling subtrees,
left to right. -/
def traversal_forest : List Node → List Node
  | [] => []
  | n :: ns => Node.traversal n ++ traversal_forest ns
end

/-- A `std::reference_wrapper` to an object stored in the tree: the position of
its node, as child indices from the root level downwards. -/
abbrev Reference := List Nat

/-- The node a reference refers to within a list of sibling subtrees, when the
position exists. -/
def node_at : List Node → Reference → Option Node
  | _, [] => none
  | ns, [i] => ns[i]?
  | ns, i :: j :: rest =>
    match ns[i]? with
    | none => none
    | some n => node_at n.children (j :: rest)

/-- `Tree<Entity>` (Entities.h lines 20-27) holds `Scene& scene_`; the root-level
child list behind `children()`, `begin()` and `end()` is the one of the generic
`Tree` of the absent Tree.h, modelled from the spec (section 3). -/
structure Tree where
  /-- `Scene& scene_` -/
  scene_ : SceneRef
  /-- root-level nodes, `children()` -/
  children_ : List Node
  deriving Repr

namespace Tree

/-- Modelled from the spec: the sequence `begin()` .. `end()` of the tree iterator,
pre-order over the whole forest (section 4.3). -/
def traversal (t : Tree) : List Node := traversal_forest t.children_

/-- Modelled from the spec: `Children<Entity>::emplace_back(args...)` on the root
child list, `emplace_child` without a parent (section 4.3): the node constructed
around `value`, with no children, is owned by the tree root, after the existing
root-level nodes. Returns the tree afterwards and the reference to the node. -/
def emplace_back (t : Tree) (value : Entity) : Tree × Reference :=
  ({ t with children_ := t.children_ ++ [Node.mk value []] }, [t.children_.length])

end Tree

/-- Position of the first element satisfying `p`, or the length of the list
when there is none: what `std::find_if(begin, end, p)` returns. -/
def find_if {α : Type} (p : α → Bool) : List α → Nat
  | [] => 0
  | a :: as => if p a then 0 else find_if p as + 1

/-- Member variables of `class Entities`, Entities.h lines 121-128. -/
structure Entities where
  /-- `Scene& scene_` -/
  scene_ : SceneRef
  /-- `Tree<Entity> tree_` -/
  tree_ : Tree
  /-- `Map<int, Reference<Entity>> entities_` -/
  entities_ : Map Int Reference
  deriving Repr

/-- Result of an `emplace`: the directory and the static counter afterwards,
the `Node<Entity>&` returned and the node it refers to. -/
structure Emplaced where
  /-- directory afterwards -/
  entities : Entities
  /-- `Entity::unique_id_` afterwards -/
  unique_id_ : Int
  /-- the reference returned -/
  ref : Reference
  /-- the node the returned reference refers to -/
  node : Node
  deriving Repr

namespace Entities

/-- `Entities::Entities(Scene& scene) : scene_(scene), tree_(scene) {}`
(Entities.cpp lines 6-9). -/
def Entities_scene (scene : SceneRef) : Entities :=
  { scene_ := scene, tree_ := { scene_ := scene, children_ := [] }, entities_ := [] }

/-- `Node<Entity>& Entities::emplace(const String& name) noexcept`
(Entities.cpp lines 11-14): `return tree_.children().emplace_back(scene_, name);`,
the node's entity being constructed by `Entity(scene_, name)`. -/
def emplace (d : Entities) (unique_id_ : Int) (name : String) : Emplaced :=
  let c := Entity.Entity_scene_name unique_id_ d.scene_ name
  let r := d.tree_.emplace_back c.1
  { entities := { d with tree_ := r.1 }, unique_id_ := c.2, ref := r.2,
    node := Node.mk c.1 [] }

/-- `Optional<std::reference_wrapper<Node<Entity>>> Entities::find(const String& name)`
(Entities.cpp lines 26-41): `std::find_if` over `tree_.begin()` .. `tree_.end()`
with the predicate `p.get().name() == name`; `std::nullopt` when the iterator
is `tree_.end()`, otherwise `*it`. -/
def find (d : Entities) (name : String) : Option Node :=
  let it := find_if (fun p => p.get.name == name) d.tree_.traversal
  if !(it != d.tree_.traversal.length) then none
  else d.tree_.traversal[it]?

/-- `Optional<std::reference_wrapper<const Node<Entity>>> Entities::find(const String& name) const`
(Entities.cpp lines 43-58), the same body on a const tree. -/
def find_const (d : Entities) (name : String) : Option Node :=
  let it := find_if (fun p => p.get.name == name) d.tree_.traversal
  if !(it != d.tree_.traversal.length) then none
  else d.tree_.traversal[it]?

/-- `Optional<std::reference_wrapper<const Entity>> Entities::operator[](int id) const noexcept`
(Entities.cpp lines 60-67): `entities_.at(id)` when `entities_.contains(id)`,
else `std::nullopt`. `at` throws on a missing key, which in a `noexcept`
function is `std::terminate`. -/
def operator_index_const (d : Entities) (id : Int) : Except Fault (Option Reference) :=
  if Map.contains d.entities_ id then
    match Map.lookup d.entities_ id with
    | none => .error .terminate
    | some r => .ok (some r)
  else .ok none

/-- `Optional<std::reference_wrapper<Entity>> Entities::operator[](int id) noexcept`
(Entities.cpp lines 69-76): `entities_[id]` when `entities_.contains(id)`, else
`std::nullopt`. -/
def operator_index (d : Entities) (id : Int) : Except Fault (Option Reference) :=
  if Map.contains d.entities_ id then
    match Map.lookup d.entities_ id with
    | none => .error .null_access
    | some r => .ok (some r)
  else .ok none

end Entities

/-! ## The sparse/dense invariant of pools -/

/-- The invariant of the spec's data model (section 3) for one pool: the back-map
is as long as the dense sequence, and every entry of the sparse map points to a
slot of the dense sequence at which the back-map yields the same id. -/
def ComponentPool.wf {V : Type} (p : ComponentPool V) : Prop :=
  p.back_.length = p.dense_.length ∧
  ∀ q ∈ p.sparse_, q.2 < p.dense_.length ∧ p.back_[q.2]? = some q.1

instance ComponentPool.wf_decidable {V : Type} (p : ComponentPool V) : Decidable p.wf := by
  unfold ComponentPool.wf
  infer_instance

/-- Every pool of the registry satisfies the pool invariant. -/
def ComponentPools.wf {V : Type} (r : ComponentPools V) : Prop :=
  ∀ q ∈ r.pools_, q.2.wf

instance ComponentPools.wf_decidable {V : Type} (r : ComponentPools V) : Decidable r.wf := by
  unfold ComponentPools.wf
  infer_instance

/-- Every pool of the scene satisfies the pool invariant. -/
def Scene.wf {V : Type} (s : Scene V) : Prop := s.pools_.wf

instance Scene.wf_decidable {V : Type} (s : Scene V) : Decidable s.wf := by
  unfold Scene.wf
  infer_instance

/-! ## Entity metadata: mutators, assignment and destruction (Entity.h) -/

/-- The value a `char` holds after an `int` is assigned to it, `char` taken as a
signed 8-bit integer; the identity on -128 .. 127. -/
def to_char (x : Int) : Int := (x + 128) % 256 - 128

namespace Entity

/-- `Scene& scene() noexcept { return *scene_; }` (lines 117-120): access through
the optional `scene_`. -/
def scene (e : Entity) : Except Fault SceneRef :=
  match e.scene_ with
  | none => .error .null_access
  | some s => .ok s

/-- `Layer current_layer() const` (lines 135-138): `Layer(static_cast<int>(layer_))`,
the layer being given by its integer value (Layer.h is absent). -/
def current_layer (e : Entity) : Int := e.layer_

/-- `void current_layer(Layer layer)` (lines 140-143):
`layer_ = static_cast<int>(layer.value())`, where `layer` is the integer
`layer.value()`; the assignment narrows it to the `char` member. -/
def set_current_layer (e : Entity) (layer : Int) : Entity :=
  { e with layer_ := to_char layer }

/-- `void is_enabled(bool v)` (lines 154-157). -/
def set_is_enabled (e : Entity) (v : Bool) : Entity := { e with enabled_ := v }

/-- `void enable()` (lines 276-279). -/
def enable (e : Entity) : Entity := { e with enabled_ := true }

/-- `void disable()` (lines 281-284). -/
def disable (e : Entity) : Entity := { e with enabled_ := false }

/-- `std::vector<std::string>& tags() noexcept` (lines 287-295). -/
def tags (e : Entity) : List String := e.tags_

/-- `Entity& operator=(const Entity& entity) { copy(entity); return *this; }`
(lines 93-97). -/
def operator_assign_copy (self entity : Entity) : Entity := copy self entity

/-- `Entity& operator=(Entity&& entity) noexcept { move(std::move(entity)); return *this; }`
(lines 99-103). -/
def operator_assign_move (self entity : Entity) : Entity := move self entity

end Entity

/-! ## The tree: entities at references, children under a parent (Entities.h) -/

/-- The entity stored at a reference, when the position exists. -/
def entity_at (ns : List Node) (ref : Reference) : Option Entity :=
  (node_at ns ref).map Node.get

/-- The sibling subtrees after the entity at `ref` has been assigned `f` of its
former value; children and all other nodes as before, no effect when the
position does not exist. This is the effect on the tree of a member function
that assigns members of the entity it is called on. -/
def update_at (f : Entity → Entity) : List Node → Reference → List Node
  | ns, [] => ns
  | ns, [i] =>
    match ns[i]? with
    | none => ns
    | some n => ns.set i (Node.mk (f n.get) n.children)
  | ns, i :: j :: rest =>
    match ns[i]? with
    | none => ns
    | some n => ns.set i (Node.mk n.get (update_at f n.children (j :: rest)))

/-- The sibling subtrees after `child` has been appended to the child list of the
node at `ref`; no effect when the position does not exist. -/
def push_child (child : Node) : List Node → Reference → List Node
  | ns, [] => ns
  | ns, [i] =>
    match ns[i]? with
    | none => ns
    | some n => ns.set i (Node.mk n.get (n.children ++ [child]))
  | ns, i :: j :: rest =>
    match ns[i]? with
    | none => ns
    | some n => ns.set i (Node.mk n.get (push_child child n.children (j :: rest)))

/-- Result of `Children<Entity>::emplace_back()`: the tree and the static counter
afterwards, the `Node<Entity>&` returned and the node it refers to. -/
structure Placed where
  /-- tree afterwards -/
  tree : Tree
  /-- `Entity::unique_id_` afterwards -/
  unique_id_ : Int
  /-- the reference returned -/
  ref : Reference
  /-- the node the returned reference refers to -/
  node : Node
  deriving Repr

/-- The constructor `Entity(Scene& scene, const String& name = "Unnamed")`
(Entity.h lines 58-60) called with the scene alone. -/
def Entity.Entity_scene_unnamed (unique_id_ : Int) (scene : SceneRef) : Entity × Int :=
  Entity.Entity_scene_name unique_id_ scene "Unnamed"

/-- Modelled from the spec: the constructor `Node<Entity>(owner, scene)` of the
absent Tree.h, called in Entities.h lines 35 and 37. The node wraps exactly one
entity (section 2), constructed from the one argument `scene`, and starts
without children. `construct` is the constructor of `Entity` used for that
argument: both `Entity(Scene&)` and `Entity(Scene&, const String& = "Unnamed")`
of Entity.h accept it. `depth_` is private in `Entity`, without a setter, and
the node is not among the friends of `Entity` (lines 46-49), so the entity is
as its constructor built it. Returns the node and the static counter
afterwards. -/
def Node.Node_scene (construct : Int → SceneRef → Entity × Int) (unique_id_ : Int)
    (scene : SceneRef) : Node × Int :=
  (Node.mk (construct unique_id_ scene).1 [], (construct unique_id_ scene).2)

/-- `template<> template<> Node<Entity>& Children<Entity>::emplace_back()`
(Entities.h lines 29-38). With a parent, the node is built by
`Node<Entity>(parent_, parent_->get().scene())` and appended to that parent's
children; without, by `Node<Entity>(tree_, tree_.scene_)` and appended to the
root-level children. `parent_` is the position of the parent node, and
`construct` the constructor of `Entity` the node constructor uses. -/
def Children.emplace_back (construct : Int → SceneRef → Entity × Int) (tree_ : Tree)
    (parent_ : Option Reference) (unique_id_ : Int) : Except Fault Placed :=
  match parent_ with
  | some p =>
    match node_at tree_.children_ p with
    | none => .error .null_access
    | some parent =>
      match parent.get.scene with
      | .error f => .error f
      | .ok scene =>
        let c := Node.Node_scene construct unique_id_ scene
        .ok { tree := { tree_ with children_ := push_child c.1 tree_.children_ p },
              unique_id_ := c.2,
              ref := p ++ [parent.children.length],
              node := c.1 }
  | none =>
    let c := Node.Node_scene construct unique_id_ tree_.scene_
    .ok { tree := { tree_ with children_ := tree_.children_ ++ [c.1] },
          unique_id_ := c.2,
          ref := [tree_.children_.length],
          node := c.1 }

namespace Entities

/-- `Node<Entity>& Entities::emplace(Entity&& entity) noexcept`
(Entities.cpp lines 16-19): `return tree_.children().emplace_back(std::move(entity));`,
the node's entity being constructed by the move constructor `Entity(Entity&&)`.
`garbage` is the indeterminate value of the new entity's `id_`. -/
def emplace_move (d : Entities) (unique_id_ : Int) (garbage : Int) (entity : Entity) : Emplaced :=
  let c := Entity.Entity_move garbage entity
  let r := d.tree_.emplace_back c
  { entities := { d with tree_ := r.1 }, unique_id_ := unique_id_, ref := r.2,
    node := Node.mk c [] }

/-- `Node<Entity>& Entities::emplace(const Entity& entity) noexcept`
(Entities.cpp lines 21-24): `return tree_.children().emplace_back(entity);`,
the node's entity being constructed by the copy constructor
`Entity(const Entity&)`. `garbage` is the indeterminate value of the new
entity's `id_`. -/
def emplace_copy (d : Entities) (unique_id_ : Int) (garbage : Int) (entity : Entity) : Emplaced :=
  let c := Entity.Entity_copy garbage entity
  let r := d.tree_.emplace_back c
  { entities := { d with tree_ := r.1 }, unique_id_ := unique_id_, ref := r.2,
    node := Node.mk c [] }

end Entities

/-! ## The program state -/

/-- Everything the operations of the core read and write: the static counter
`Entity::unique_id_`, the scene with its pool registry, and the scene's
directory with the tree of entities. -/
structure World (V : Type) where
  /-- `Entity::unique_id_` -/
  unique_id_ : Int
  /-- the scene `scene_` refers to -/
  scene : Scene V
  /-- the directory of that scene -/
  entities : Entities

namespace World

variable {V : Type}

/-- The entity a reference refers to in the tree of the directory. -/
def entity_at (w : World V) (ref : Reference) : Option Entity :=
  Corgi.entity_at w.entities.tree_.children_ ref

/-- A call, on the entity `ref` refers to, of a member function that assigns
members of that entity and touches nothing else (`name(n)`, `current_layer(l)`,
`is_enabled(v)`, `enable()`, `disable()`, `operator=`); `f` gives the entity
afterwards. A reference to no entity is a fault. -/
def assign (w : World V) (ref : Reference) (f : Entity → Entity) : Except Fault (World V) :=
  match w.entity_at ref with
  | none => .error .null_access
  | some _ =>
    .ok { w with
          entities := { w.entities with
            tree_ := { w.entities.tree_ with
              children_ := update_at f w.entities.tree_.children_ ref } } }

/-- A call, on the entity `ref` refers to, of a facade function that works on the
scene (`add_component`, `remove_component`); `op` is the function, from the
entity and the scene before to the scene afterwards and the result. No member
of the entity is assigned by these functions, the tree is as before. -/
def facade {α : Type} (w : World V) (ref : Reference)
    (op : Entity → Scene V → Except Fault (Scene V × α)) : Except Fault (World V × α) :=
  match w.entity_at ref with
  | none => .error .null_access
  | some e =>
    match op e w.scene with
    | .error f => .error f
    | .ok (s, a) => .ok ({ w with scene := s }, a)

/-- A call, on the entity `ref` refers to, of a `const` query (`has_component`):
the query reads the entity and the scene and returns its answer. -/
def query {α : Type} (w : World V) (ref : Reference)
    (q : Entity → Scene V → Except Fault α) : Except Fault (World V × α) :=
  match w.entity_at ref with
  | none => .error .null_access
  | some e =>
    match q e w.scene with
    | .error f => .error f
    | .ok a => .ok (w, a)

/-- `Entities::emplace(const String&)` on the directory of the world. -/
def emplace (w : World V) (name : String) : World V × Reference :=
  let r := w.entities.emplace w.unique_id_ name
  ({ w with unique_id_ := r.unique_id_, entities := r.entities }, r.ref)

/-- `Entities::emplace(const Entity&)` on the directory of the world. -/
def emplace_copy (w : World V) (garbage : Int) (entity : Entity) : World V × Reference :=
  let r := w.entities.emplace_copy w.unique_id_ garbage entity
  ({ w with unique_id_ := r.unique_id_, entities := r.entities }, r.ref)

/-- `Entities::emplace(Entity&&)` on the directory of the world. -/
def emplace_move (w : World V) (garbage : Int) (entity : Entity) : World V × Reference :=
  let r := w.entities.emplace_move w.unique_id_ garbage entity
  ({ w with unique_id_ := r.unique_id_, entities := r.entities }, r.ref)

end World

/-! ## Concrete inputs used by the evaluations below -/

/-- A scene whose registry has no pool, with natural numbers as component values. -/
def empty_scene : Scene Nat := { pools_ := { pools_ := [] } }

/-- The scene in which the entity with id 0 carries component 42 of type 7. -/
def populated_scene : Scene Nat :=
  { pools_ := { pools_ := [(7, { dense_ := [42], sparse_ := [(0, 0)], back_ := [0] })] } }

/-- The directory of scene 0 right after construction. -/
def fresh_entities : Entities := Entities.Entities_scene 0

/-- The entity built by `Entity(scene)` for scene 0 when the counter is 0. -/
def first_entity : Entity := (Entity.Entity_scene 0 0).1

/-- An entity of scene 0 with id 0 that carries a tag, a name, a layer and is
disabled. -/
def tagged_entity : Entity :=
  { scene_ := some 0, tags_ := ["hero"], name_ := "Player", layer_ := 3, enabled_ := false,
    id_ := 0, depth_ := 0 }

/-- The world after `emplace("Player")` on the directory of a new scene 0 whose
registry holds component 42 of type 7 for id 0, the id of the entity created. -/
def first_world : World Nat :=
  { unique_id_ := 0, scene := populated_scene,
    entities := (fresh_entities.emplace 0 "Player").entities }

/-- The tree with one root-level node, created by `emplace("Player")` on the
directory of a new scene 0. -/
def one_root_tree : Tree := (fresh_entities.emplace 0 "Player").entities.tree_

/-- The directories that the member functions of `Entities` in the sources build:
the constructor, then any number of `emplace` calls of the three overloads. -/
inductive Entities.Reachable : Entities → Prop where
  | ctor (scene : SceneRef) : Entities.Reachable (Entities.Entities_scene scene)
  | emplace (d : Entities) (u : Int) (name : String) :
      Entities.Reachable d → Entities.Reachable (d.emplace u name).entities
  | emplace_copy (d : Entities) (u g : Int) (entity : Entity) :
      Entities.Reachable d → Entities.Reachable (d.emplace_copy u g entity).entities
  | emplace_move (d : Entities) (u g : Int) (entity : Entity) :
      Entities.Reachable d → Entities.Reachable (d.emplace_move u g entity).entities

/-! ## Lemmas on finite maps -/

section MapLemmas

variable {K W : Type} [DecidableEq K]

theorem Map.lookup_cons (m : Map K W) (a k : K) (b : W) :
    Map.lookup ((a, b) :: m) k = if a = k then some b else Map.lookup m k := rfl

theorem Map.replace_cons (m : Map K W) (a k : K) (b w : W) :
    Map.replace ((a, b) :: m) k w = (if a = k then (k, w) else (a, b)) :: Map.replace m k w := rfl

theorem Map.erase_cons (m : Map K W) (a k : K) (b : W) :
    Map.erase ((a, b) :: m) k = if a = k then Map.erase m k else (a, b) :: Map.erase m k := by
  by_cases h : a = k <;> simp [Map.erase, List.filter, h]

theorem Map.lookup_insert_self (m : Map K W) (k : K) (w : W) :
    Map.lookup (Map.insert m k w) k = some w := by
  simp [Map.insert, Map.lookup_cons]

theorem Map.lookup_insert_ne (m : Map K W) (k k' : K) (w : W) (h : k ≠ k') :
    Map.lookup (Map.insert m k w) k' = Map.lookup m k' := by
  simp [Map.insert, Map.lookup_cons, h]

theorem Map.lookup_replace (m : Map K W) (k k' : K) (w : W) :
    Map.lookup (Map.replace m k w) k' =
      if k = k' then (Map.lookup m k').map (fun _ => w) else Map.lookup m k' := by
  induction m with
  | nil => simp [Map.replace, Map.lookup]
  | cons p m ih =>
    obtain ⟨a, b⟩ := p
    rw [Map.replace_cons, Map.lookup_cons]
    by_cases hak : a = k
    · rw [if_pos hak, Map.lookup_cons, ih]
      by_cases hkk : k = k'
      · have hak' : a = k' := hak.trans hkk
        simp [hkk, hak']
      · have hak' : ¬ a = k' := fun h => hkk (hak.symm.trans h)
        simp [hkk, hak']
    · rw [if_neg hak, Map.lookup_cons, ih]
      by_cases hak' : a = k'
      · have hkk : ¬ k = k' := fun h => hak (hak'.trans h.symm)
        simp [hkk, hak']
      · simp [hak']

theorem Map.lookup_replace_self (m : Map K W) (k : K) (w : W) :
    Map.lookup (Map.replace m k w) k = (Map.lookup m k).map (fun _ => w) := by
  rw [Map.lookup_replace, if_pos rfl]

theorem Map.lookup_erase_self (m : Map K W) (k : K) :
    Map.lookup (Map.erase m k) k = none := by
  induction m with
  | nil => simp [Map.erase, Map.lookup]
  | cons p m ih =>
    obtain ⟨a, b⟩ := p
    rw [Map.erase_cons]
    by_cases hak : a = k
    · rw [if_pos hak]; exact ih
    · rw [if_neg hak, Map.lookup_cons, if_neg hak]; exact ih

theorem Map.contains_iff (m : Map K W) (k : K) :
    Map.contains m k = true ↔ ∃ w, Map.lookup m k = some w := by
  simp [Map.contains, Option.isSome_iff_exists]

theorem Map.contains_false_iff (m : Map K W) (k : K) :
    Map.contains m k = false ↔ Map.lookup m k = none := by
  simp [Map.contains]

end MapLemmas

/-! ## The directory: creation and lookup by id -/

/-- Frame of `emplace(name)`: the id-index `entities_` is not written. -/
theorem Entities.emplace_entities_ (d : Entities) (u : Int) (name : String) :
    (d.emplace u name).entities.entities_ = d.entities_ := rfl

/-- Both overloads of `operator[]` return what the id-index binds to the id. -/
theorem Entities.operator_index_eq (d : Entities) (id : Int) :
    d.operator_index id = .ok (Map.lookup d.entities_ id) ∧
    d.operator_index_const id = .ok (Map.lookup d.entities_ id) := by
  unfold Entities.operator_index Entities.operator_index_const Map.contains
  cases h : Map.lookup d.entities_ id <;> simp

/-- The reference returned by `emplace(name)` refers, in the tree afterwards, to
the node created. -/
theorem Entities.emplace_ref (d : Entities) (u : Int) (name : String) :
    node_at (d.emplace u name).entities.tree_.children_ (d.emplace u name).ref
      = some (d.emplace u name).node := by
  simp [Entities.emplace, Tree.emplace_back, node_at]

/-- C1, as the code behaves: `Entities::emplace(name)` never writes the id-index,
so on the directory of a new scene the lookup `operator[](e.id())` right after
`emplace("Player")` created `e` returns absent, and in every state the lookup of
every id gives after `emplace` what it gave before. -/
theorem C1_lookup_after_emplace_is_absent :
    Entities.operator_index (fresh_entities.emplace 0 "Player").entities
        (fresh_entities.emplace 0 "Player").node.get.id = .ok none ∧
    ∀ (d : Entities) (u : Int) (name : String) (id : Int),
      Entities.operator_index (d.emplace u name).entities id = Entities.operator_index d id := by
  refine ⟨by decide, ?_⟩
  intro d u name id
  rw [(Entities.operator_index_eq _ id).1, (Entities.operator_index_eq d id).1,
    Entities.emplace_entities_]

/-- C2, as the code behaves: `Entity(Scene&, const String&)` reads
`unique_id_` without incrementing it, so `emplace(name)` leaves the counter as
it was and two successive `emplace` calls create two nodes, at different
positions of the tree, whose entities have the same id. -/
theorem C2_successive_emplace_share_id (d : Entities) (u : Int) (a b : String) :
    (d.emplace u a).unique_id_ = u ∧
    ((d.emplace u a).entities.emplace (d.emplace u a).unique_id_ b).node.get.id
      = (d.emplace u a).node.get.id ∧
    ((d.emplace u a).entities.emplace (d.emplace u a).unique_id_ b).ref
      ≠ (d.emplace u a).ref := by
  refine ⟨rfl, rfl, ?_⟩
  simp [Entities.emplace, Tree.emplace_back]

/-- C8: `Entities::operator[](id)` never fails. For every directory and every
integer id both overloads return absent when id is not a key of the id-index
and the reference the index binds to id when it is a key, and the const and
non-const overloads return the same result. -/
theorem C8_operator_index_total (d : Entities) (id : Int) :
    (Map.contains d.entities_ id = false → d.operator_index id = .ok none) ∧
    (∀ r, Map.lookup d.entities_ id = some r → d.operator_index id = .ok (some r)) ∧
    (∃ o, d.operator_index id = .ok o) ∧
    d.operator_index_const id = d.operator_index id := by
  obtain ⟨h1, h2⟩ := Entities.operator_index_eq d id
  refine ⟨?_, ?_, ⟨_, h1⟩, by rw [h1, h2]⟩
  · intro h
    rw [h1, (Map.contains_false_iff _ _).1 h]
  · intro r h
    rw [h1, h]

/-- C10, as the code behaves: `Entity(Scene&, const String&)` does not store its
`name` argument, so the entity created by `emplace(name)` has the empty name
whatever `name` is, and on the directory of a new scene `find("Player")` right
after `emplace("Player")` returns absent. -/
theorem C10_emplace_drops_name :
    (∀ (d : Entities) (u : Int) (name : String), (d.emplace u name).node.get.name = "") ∧
    Entities.find (fresh_entities.emplace 0 "Player").entities "Player" = none := by
  refine ⟨fun _ _ _ => rfl, ?_⟩
  have h : (Entities.find (fresh_entities.emplace 0 "Player").entities "Player").isSome
      = false := by decide
  simpa using h

/-! ## The pool registry and the facade, case by case -/

section Facade

variable {V : Type}

theorem ComponentPools.contains_eq (r : ComponentPools V) (t : TypeKey) :
    r.contains t = (r.get t).isSome := rfl

theorem ComponentPools.get_store (r : ComponentPools V) (t : TypeKey) (p p' : ComponentPool V)
    (h : r.get t = some p) : (r.store t p').get t = some p' := by
  unfold ComponentPools.get at h
  simp [ComponentPools.get, ComponentPools.store, Map.lookup_replace_self, h]

theorem ComponentPools.get_store_ne (r : ComponentPools V) (t t' : TypeKey)
    (p' : ComponentPool V) (h : t ≠ t') : (r.store t p').get t' = r.get t' := by
  simp [ComponentPools.get, ComponentPools.store, Map.lookup_replace, h]

/-- The registry after `ensure_pool`: never a failure; an existing pool is kept,
a missing one is created empty. -/
theorem Entity.ensure_pool_eq (r : ComponentPools V) (T : TypeKey) :
    Entity.ensure_pool r T =
      match r.get T with
      | some _ => .ok r
      | none => .ok { pools_ := Map.insert r.pools_ T ComponentPool.empty } := by
  unfold Entity.ensure_pool ComponentPools.add
  rw [ComponentPools.contains_eq]
  cases h : r.get T <;> simp

/-- The query `has_component` on an entity that holds a scene reference. -/
theorem Entity.has_component_eq (e : Entity) (s : Scene V) (t : TypeKey) (r : SceneRef)
    (h : e.scene_ = some r) :
    e.has_component s t =
      .ok (match s.pools.get t with
           | none => false
           | some pool => pool.has_component e.id_) := by
  unfold Entity.has_component
  rw [h, ComponentPools.contains_eq]
  cases hg : s.pools.get t <;> simp

/-- The call `get_component` on an entity that holds a scene reference. -/
theorem Entity.get_component_eq (e : Entity) (s : Scene V) (T : TypeKey) (r : SceneRef)
    (h : e.scene_ = some r) :
    e.get_component s T =
      match s.pools.get T with
      | none => .error .terminate
      | some pool => if pool.has_component e.id_ then pool.get e.id_ else .error .terminate := by
  unfold Entity.get_component
  rw [h, ComponentPools.contains_eq]
  cases hg : s.pools.get T with
  | none => simp
  | some pool => cases hh : pool.has_component e.id_ <;> simp [hh]

/-- The call `remove_component` on an entity that holds a scene reference. -/
theorem Entity.remove_component_eq (e : Entity) (s : Scene V) (t : TypeKey) (r : SceneRef)
    (h : e.scene_ = some r) :
    e.remove_component s t =
      match s.pools.get t with
      | none => .ok s
      | some pool =>
        if pool.has_component e.id_ then
          match pool.remove e.id_ with
          | .error f => .error f
          | .ok pool' => .ok { s with pools_ := s.pools.store t pool' }
        else .ok s := by
  unfold Entity.remove_component
  rw [Entity.has_component_eq e s t r h, h, ComponentPools.contains_eq]
  cases hg : s.pools.get t with
  | none => simp
  | some pool => cases hh : pool.has_component e.id_ <;> simp [hh]

/-- The call `add_component(T&&)` on an entity that holds a scene reference. -/
theorem Entity.add_component_eq (e : Entity) (s : Scene V) (T : TypeKey) (v : V) (r : SceneRef)
    (h : e.scene_ = some r) :
    e.add_component s T v =
      match s.pools.get T with
      | some pool =>
        (match pool.add e.id_ v with
         | .error f => .error f
         | .ok (pool', c) => .ok ({ s with pools_ := s.pools.store T pool' }, c))
      | none =>
        (match (ComponentPool.empty : ComponentPool V).add e.id_ v with
         | .error f => .error f
         | .ok (pool', c) =>
           .ok ({ s with
                  pools_ := ComponentPools.store
                    (ComponentPools.mk (Map.insert s.pools.pools_ T ComponentPool.empty))
                    T pool' }, c)) := by
  unfold Entity.add_component
  rw [h, Entity.ensure_pool_eq]
  cases hg : s.pools.get T with
  | some pool => simp [hg]
  | none => simp [ComponentPools.get, Map.lookup_insert_self]

end Facade

/-! ## Pools: `add`, `get`, `remove` and the invariant -/

section Pool

variable {V : Type}

theorem Map.lookup_mem {K W : Type} [DecidableEq K] (m : Map K W) (k : K) (w : W)
    (h : Map.lookup m k = some w) : (k, w) ∈ m := by
  induction m with
  | nil => simp [Map.lookup] at h
  | cons p m ih =>
    obtain ⟨a, b⟩ := p
    rw [Map.lookup_cons] at h
    by_cases hak : a = k
    · rw [if_pos hak] at h
      simp only [Option.some.injEq] at h
      subst hak; subst h
      exact List.mem_cons_self _ _
    · rw [if_neg hak] at h
      exact List.mem_cons_of_mem _ (ih h)

theorem ComponentPool.has_component_lookup (p : ComponentPool V) (id : Int) :
    p.has_component id = (Map.lookup p.sparse_ id).isSome := rfl

theorem ComponentPool.add_of_has (p : ComponentPool V) (id : Int) (v : V)
    (h : p.has_component id = true) : p.add id v = .error .DuplicateComponent := by
  simp [ComponentPool.add, h]

theorem ComponentPool.add_of_not_has (p : ComponentPool V) (id : Int) (v : V)
    (h : p.has_component id = false) :
    p.add id v = .ok ({ dense_ := p.dense_ ++ [v],
                        sparse_ := Map.insert p.sparse_ id p.dense_.length,
                        back_ := p.back_ ++ [id] }, v) := by
  simp [ComponentPool.add, h]

/-- What `add` leaves behind: the id has a slot, `get` gives the value added, and a
following `remove` succeeds and frees the id. -/
theorem ComponentPool.after_add (p p' : ComponentPool V) (id : Int) (v c : V)
    (h : p.add id v = .ok (p', c)) :
    c = v ∧ p'.has_component id = true ∧ p'.get id = .ok v ∧
    ∃ p'', p'.remove id = .ok p'' ∧ p''.has_component id = false := by
  cases hh : p.has_component id with
  | true => rw [ComponentPool.add_of_has p id v hh] at h; cases h
  | false =>
    rw [ComponentPool.add_of_not_has p id v hh] at h
    simp only [Except.ok.injEq, Prod.mk.injEq] at h
    obtain ⟨hp, hc⟩ := h
    subst hp
    refine ⟨hc.symm, ?_, ?_, ?_⟩
    · simp [ComponentPool.has_component_lookup, Map.lookup_insert_self]
    · simp [ComponentPool.get, Map.lookup_insert_self]
    · refine ⟨{ dense_ := (p.dense_ ++ [v]).dropLast,
                sparse_ := Map.erase (Map.insert p.sparse_ id p.dense_.length) id,
                back_ := (p.back_ ++ [id]).dropLast }, ?_, ?_⟩
      · simp only [ComponentPool.remove, Map.lookup_insert_self]
        rw [if_pos (by simp)]
      · simp [ComponentPool.has_component_lookup, Map.lookup_erase_self]

/-- `remove` fails with `MissingComponent` only on an id without a slot. -/
theorem ComponentPool.remove_missing_iff (p : ComponentPool V) (id : Int) :
    p.remove id = .error .MissingComponent ↔ p.has_component id = false := by
  unfold ComponentPool.remove
  rw [ComponentPool.has_component_lookup]
  cases hl : Map.lookup p.sparse_ id with
  | none => simp
  | some slot =>
    simp only [Option.isSome_some, Bool.true_eq_false, iff_false]
    split
    · simp
    · split <;> simp

/-- Under the invariant `get` succeeds on every id that has a slot. -/
theorem ComponentPool.get_of_wf (p : ComponentPool V) (id : Int) (hw : p.wf)
    (h : p.has_component id = true) : ∃ v, p.get id = .ok v := by
  rw [ComponentPool.has_component_lookup, Option.isSome_iff_exists] at h
  obtain ⟨slot, hs⟩ := h
  have hlt : slot < p.dense_.length := (hw.2 _ (Map.lookup_mem _ _ _ hs)).1
  refine ⟨p.dense_[slot], ?_⟩
  simp [ComponentPool.get, hs, List.getElem?_eq_getElem hlt]

theorem ComponentPool.empty_wf : (ComponentPool.empty : ComponentPool V).wf := by
  simp [ComponentPool.wf, ComponentPool.empty]

/-- The strict `add` keeps the invariant. -/
theorem ComponentPool.add_wf (p p' : ComponentPool V) (id : Int) (v c : V) (hw : p.wf)
    (h : p.add id v = .ok (p', c)) : p'.wf := by
  cases hh : p.has_component id with
  | true => rw [ComponentPool.add_of_has p id v hh] at h; cases h
  | false =>
    rw [ComponentPool.add_of_not_has p id v hh] at h
    simp only [Except.ok.injEq, Prod.mk.injEq] at h
    obtain ⟨hp, _⟩ := h
    subst hp
    obtain ⟨hlen, hall⟩ := hw
    refine ⟨by simp [hlen], ?_⟩
    intro q hq
    simp only [Map.insert, List.mem_cons] at hq
    rcases hq with hq | hq
    · subst hq
      simp [← hlen]
    · obtain ⟨h1, h2⟩ := hall q hq
      refine ⟨by simp; omega, ?_⟩
      rw [List.getElem?_append_left (by omega)]
      exact h2

end Pool

section PoolInvariant

variable {V : Type}

theorem Map.mem_erase {K W : Type} [DecidableEq K] (m : Map K W) (k : K) (q : K × W)
    (h : q ∈ Map.erase m k) : q ∈ m ∧ q.1 ≠ k := by
  simpa [Map.erase] using h

theorem Map.mem_replace {K W : Type} [DecidableEq K] (m : Map K W) (k : K) (w : W) (q : K × W)
    (h : q ∈ Map.replace m k w) : q = (k, w) ∨ (q ∈ m ∧ q.1 ≠ k) := by
  simp only [Map.replace, List.mem_map] at h
  obtain ⟨q0, hq0, he⟩ := h
  by_cases hk : q0.1 = k
  · rw [if_pos hk] at he
    exact Or.inl he.symm
  · rw [if_neg hk] at he
    subst he
    exact Or.inr ⟨hq0, hk⟩

/-- The strict `remove`, swap-and-pop, keeps the invariant. -/
theorem ComponentPool.remove_wf (p p' : ComponentPool V) (id : Int) (hw : p.wf)
    (h : p.remove id = .ok p') : p'.wf := by
  obtain ⟨hlen, hall⟩ := hw
  unfold ComponentPool.remove at h
  cases hl : Map.lookup p.sparse_ id with
  | none => rw [hl] at h; cases h
  | some slot =>
    rw [hl] at h
    simp only at h
    obtain ⟨hslot, hback⟩ := hall _ (Map.lookup_mem _ _ _ hl)
    simp only at hslot hback
    split at h
    · rename_i hsl
      simp only [Except.ok.injEq] at h
      subst h
      refine ⟨by simp [hlen], ?_⟩
      intro q hq
      obtain ⟨hq1, hq2⟩ := Map.mem_erase _ _ _ hq
      obtain ⟨h1, h2⟩ := hall q hq1
      have hne : q.2 ≠ slot := by
        intro hEq
        rw [hEq, hback] at h2
        exact hq2 (Option.some.inj h2).symm
      have hlt : q.2 < p.dense_.length - 1 := by omega
      refine ⟨by simpa using hlt, ?_⟩
      show p.back_.dropLast[q.2]? = some q.1
      rw [List.getElem?_dropLast, if_pos (by omega)]
      exact h2
    · rename_i hsl
      split at h
      · rename_i v moved hv hm
        simp only [Except.ok.injEq] at h
        subst h
        refine ⟨by simp [hlen], ?_⟩
        intro q hq
        obtain ⟨hq1, hq2⟩ := Map.mem_erase _ _ _ hq
        rcases Map.mem_replace _ _ _ _ hq1 with hq3 | ⟨hq3, hq4⟩
        · subst hq3
          have hlt : slot < p.dense_.length - 1 := by omega
          refine ⟨by simpa using hlt, ?_⟩
          show (p.back_.set slot moved).dropLast[slot]? = some moved
          rw [List.getElem?_dropLast, if_pos (by simp; omega)]
          exact List.getElem?_set_self (by omega)
        · obtain ⟨h1, h2⟩ := hall q hq3
          have hne1 : q.2 ≠ slot := by
            intro hEq
            rw [hEq, hback] at h2
            exact hq2 (Option.some.inj h2).symm
          have hne2 : q.2 ≠ p.dense_.length - 1 := by
            intro hEq
            rw [hEq, hm] at h2
            exact hq4 (Option.some.inj h2).symm
          have hlt : q.2 < p.dense_.length - 1 := by omega
          refine ⟨by simpa using hlt, ?_⟩
          show (p.back_.set slot moved).dropLast[q.2]? = some q.1
          rw [List.getElem?_dropLast, if_pos (by simp; omega),
            List.getElem?_set_ne (Ne.symm hne1)]
          exact h2
      · cases h

theorem ComponentPools.wf_get (r : ComponentPools V) (t : TypeKey) (p : ComponentPool V)
    (hw : r.wf) (h : r.get t = some p) : p.wf :=
  hw _ (Map.lookup_mem _ _ _ h)

theorem ComponentPools.store_wf (r : ComponentPools V) (t : TypeKey) (p : ComponentPool V)
    (hw : r.wf) (hp : p.wf) : (r.store t p).wf := by
  intro q hq
  rcases Map.mem_replace _ _ _ _ hq with hq1 | ⟨hq1, _⟩
  · subst hq1; exact hp
  · exact hw q hq1

theorem Entity.ensure_pool_wf (r r' : ComponentPools V) (T : TypeKey) (hw : r.wf)
    (h : Entity.ensure_pool r T = .ok r') : r'.wf := by
  rw [Entity.ensure_pool_eq] at h
  cases hg : r.get T with
  | some p => rw [hg] at h; simp only [Except.ok.injEq] at h; subst h; exact hw
  | none =>
    rw [hg] at h
    simp only [Except.ok.injEq] at h
    subst h
    intro q hq
    simp only [Map.insert, List.mem_cons] at hq
    rcases hq with hq | hq
    · subst hq; exact ComponentPool.empty_wf
    · exact hw q hq

end PoolInvariant

/-! ## The facade: attaching, reading and detaching components -/

section FacadeClaims

variable {V : Type}

/-- After a successful `add_component(T&&)` the registry has a pool for the type,
and that pool holds the component for the entity's id. -/
theorem Entity.after_add_component (e : Entity) (s s1 : Scene V) (T : TypeKey) (v c : V)
    (h : e.add_component s T v = .ok (s1, c)) :
    ∃ r pool', e.scene_ = some r ∧ c = v ∧ s1.pools.get T = some pool' ∧
      pool'.has_component e.id_ = true ∧ pool'.get e.id_ = .ok v ∧
      ∃ p'', pool'.remove e.id_ = .ok p'' ∧ p''.has_component e.id_ = false := by
  cases hs : e.scene_ with
  | none => simp [Entity.add_component, hs] at h
  | some r =>
    rw [Entity.add_component_eq e s T v r hs] at h
    cases hg : s.pools.get T with
    | some pool =>
      rw [hg] at h
      simp only at h
      cases ha : pool.add e.id_ v with
      | error f => rw [ha] at h; cases h
      | ok res =>
        obtain ⟨pool', c'⟩ := res
        rw [ha] at h
        simp only [Except.ok.injEq, Prod.mk.injEq] at h
        obtain ⟨h1, h2⟩ := h
        subst h1; subst h2
        obtain ⟨a1, a2, a3, a4⟩ := ComponentPool.after_add pool pool' e.id_ v c' ha
        exact ⟨r, pool', rfl, a1, ComponentPools.get_store _ _ _ _ hg, a2, a3, a4⟩
    | none =>
      rw [hg] at h
      simp only at h
      cases ha : (ComponentPool.empty : ComponentPool V).add e.id_ v with
      | error f => rw [ha] at h; cases h
      | ok res =>
        obtain ⟨pool', c'⟩ := res
        rw [ha] at h
        simp only [Except.ok.injEq, Prod.mk.injEq] at h
        obtain ⟨h1, h2⟩ := h
        subst h1; subst h2
        obtain ⟨a1, a2, a3, a4⟩ := ComponentPool.after_add _ pool' e.id_ v c' ha
        refine ⟨r, pool', rfl, a1, ?_, a2, a3, a4⟩
        exact ComponentPools.get_store _ _ ComponentPool.empty _
          (by simp [ComponentPools.get, Map.lookup_insert_self])

/-- The call `add_component(Args&&...)` on an entity that holds a scene reference. -/
theorem Entity.add_component_args_eq (e : Entity) (s : Scene V) (T : TypeKey) (v : V)
    (r : SceneRef) (h : e.scene_ = some r) :
    e.add_component_args s T v =
      match s.pools.get T with
      | some pool =>
        if pool.has_component e.id_ then
          (match pool.get e.id_ with
           | .error f => .error f
           | .ok c => .ok (s, c))
        else
          (match pool.add e.id_ v with
           | .error f => .error f
           | .ok (pool', c) => .ok ({ s with pools_ := s.pools.store T pool' }, c))
      | none =>
        (match (ComponentPool.empty : ComponentPool V).add e.id_ v with
         | .error f => .error f
         | .ok (pool', c) =>
           .ok ({ s with
                  pools_ := ComponentPools.store
                    (ComponentPools.mk (Map.insert s.pools.pools_ T ComponentPool.empty))
                    T pool' }, c)) := by
  unfold Entity.add_component_args
  rw [h, Entity.ensure_pool_eq]
  cases hg : s.pools.get T with
  | some pool =>
    simp only [hg, Entity.id, ComponentPool.add_param]
    cases hh : pool.has_component e.id_ with
    | true =>
      simp only [if_true]
      cases pool.get e.id_ <;> rfl
    | false => simp
  | none =>
    simp only [ComponentPools.get, Map.lookup_insert_self, Entity.id, ComponentPool.add_param]
    have hf : (ComponentPool.empty : ComponentPool V).has_component e.id_ = false := rfl
    rw [hf]
    simp

/-- After a successful `add_component(Args&&...)` the registry has a pool for the
type, and that pool holds, for the entity's id, the component returned. -/
theorem Entity.after_add_component_args (e : Entity) (s s1 : Scene V) (T : TypeKey) (v c : V)
    (h : e.add_component_args s T v = .ok (s1, c)) :
    ∃ r pool', e.scene_ = some r ∧ s1.pools.get T = some pool' ∧
      pool'.has_component e.id_ = true ∧ pool'.get e.id_ = .ok c := by
  cases hs : e.scene_ with
  | none => simp [Entity.add_component_args, hs] at h
  | some r =>
    rw [Entity.add_component_args_eq e s T v r hs] at h
    cases hg : s.pools.get T with
    | some pool =>
      rw [hg] at h
      simp only at h
      cases hh : pool.has_component e.id_ with
      | true =>
        rw [hh] at h
        simp only [if_true] at h
        cases hc : pool.get e.id_ with
        | error f => rw [hc] at h; cases h
        | ok c' =>
          rw [hc] at h
          simp only [Except.ok.injEq, Prod.mk.injEq] at h
          obtain ⟨h1, h2⟩ := h
          subst h1; subst h2
          exact ⟨r, pool, rfl, hg, hh, hc⟩
      | false =>
        rw [hh] at h
        simp only [Bool.false_eq_true, if_false] at h
        cases ha : pool.add e.id_ v with
        | error f => rw [ha] at h; cases h
        | ok res =>
          obtain ⟨pool', c'⟩ := res
          rw [ha] at h
          simp only [Except.ok.injEq, Prod.mk.injEq] at h
          obtain ⟨h1, h2⟩ := h
          subst h1; subst h2
          obtain ⟨a1, a2, a3, _⟩ := ComponentPool.after_add pool pool' e.id_ v c' ha
          exact ⟨r, pool', rfl, ComponentPools.get_store _ _ _ _ hg, a2, by rw [a1]; exact a3⟩
    | none =>
      rw [hg] at h
      simp only at h
      cases ha : (ComponentPool.empty : ComponentPool V).add e.id_ v with
      | error f => rw [ha] at h; cases h
      | ok res =>
        obtain ⟨pool', c'⟩ := res
        rw [ha] at h
        simp only [Except.ok.injEq, Prod.mk.injEq] at h
        obtain ⟨h1, h2⟩ := h
        subst h1; subst h2
        obtain ⟨a1, a2, a3, _⟩ := ComponentPool.after_add _ pool' e.id_ v c' ha
        refine ⟨r, pool', rfl, ?_, a2, by rw [a1]; exact a3⟩
        exact ComponentPools.get_store _ _ ComponentPool.empty _
          (by simp [ComponentPools.get, Map.lookup_insert_self])

/-- The sibling overload `add_component(Args&&...)` is idempotent: a second call
returns the component the first call returned and leaves the scene as the first
call left it. -/
theorem Entity.add_component_args_twice (e : Entity) (s s1 : Scene V) (T : TypeKey) (v w c : V)
    (h : e.add_component_args s T v = .ok (s1, c)) :
    e.add_component_args s1 T w = .ok (s1, c) := by
  obtain ⟨r, pool', hs, hg, hh, hc⟩ := Entity.after_add_component_args e s s1 T v c h
  rw [Entity.add_component_args_eq e s1 T w r hs, hg]
  simp only
  rw [if_pos hh, hc]

/-- C3, as the code behaves: the overload `add_component(T&&)` calls the pool's
strict `add` without asking `has_component` first, so after a first call that
attached a component a second call on the same entity raises
`DuplicateComponent`, for every entity, scene, type and values; on the scene
without pools, attaching 42 and then 43 of type 7 to the first entity is such a
run. -/
theorem C3_second_add_component_raises :
    ((first_entity.add_component empty_scene 7 42).bind
        (fun r => first_entity.add_component r.1 7 43)) = .error .DuplicateComponent ∧
    ∀ (W : Type) (e : Entity) (s s1 : Scene W) (T : TypeKey) (v w c : W),
      e.add_component s T v = .ok (s1, c) →
      e.add_component s1 T w = .error .DuplicateComponent := by
  refine ⟨by decide, ?_⟩
  intro W e s s1 T v w c h
  obtain ⟨r, pool', hs, _, hg, hh, _, _⟩ := Entity.after_add_component e s s1 T v c h
  rw [Entity.add_component_eq e s1 T w r hs, hg]
  simp only
  rw [ComponentPool.add_of_has pool' e.id_ w hh]

end FacadeClaims

section FacadeRoundTrip

variable {V : Type}

/-- What `has_component` answering `false` says about the entity and the scene. -/
theorem Entity.has_component_false (e : Entity) (s : Scene V) (T : TypeKey)
    (h : e.has_component s T = .ok false) :
    ∃ r, e.scene_ = some r ∧
      ∀ pool, s.pools.get T = some pool → pool.has_component e.id_ = false := by
  cases hs : e.scene_ with
  | none => simp [Entity.has_component, hs] at h
  | some r =>
    refine ⟨r, rfl, ?_⟩
    intro pool hg
    rw [Entity.has_component_eq e s T r hs, hg] at h
    simpa using h

/-- The strict `add` succeeds on an id without a slot and returns the value added. -/
theorem Entity.add_component_ok (e : Entity) (s : Scene V) (T : TypeKey) (v : V) (r : SceneRef)
    (hs : e.scene_ = some r)
    (hn : ∀ pool, s.pools.get T = some pool → pool.has_component e.id_ = false) :
    ∃ s1, e.add_component s T v = .ok (s1, v) := by
  rw [Entity.add_component_eq e s T v r hs]
  cases hg : s.pools.get T with
  | some pool =>
    simp only
    rw [ComponentPool.add_of_not_has pool e.id_ v (hn pool hg)]
    exact ⟨_, rfl⟩
  | none =>
    simp only
    rw [ComponentPool.add_of_not_has (ComponentPool.empty : ComponentPool V) e.id_ v rfl]
    exact ⟨_, rfl⟩

/-- C4: round trip on the entity facade. For every entity that has no component of
type T (the query `has_component` answers false) and every value v,
`add_component(v)` succeeds and returns v; afterwards `get_component` returns v
and `has_component` is true; a following `remove_component` succeeds and
afterwards `has_component` is false. -/
theorem C4_add_get_remove_round_trip (e : Entity) (s : Scene V) (T : TypeKey) (v : V)
    (h : e.has_component s T = .ok false) :
    ∃ s1, e.add_component s T v = .ok (s1, v) ∧
      e.get_component s1 T = .ok v ∧
      e.has_component s1 T = .ok true ∧
      ∃ s2, e.remove_component s1 T = .ok s2 ∧ e.has_component s2 T = .ok false := by
  obtain ⟨r, hs, hn⟩ := Entity.has_component_false e s T h
  obtain ⟨s1, h1⟩ := Entity.add_component_ok e s T v r hs hn
  obtain ⟨_, pool', _, _, hg, hh, hget, p'', hrm, hh2⟩ :=
    Entity.after_add_component e s s1 T v v h1
  refine ⟨s1, h1, ?_, ?_, ?_⟩
  · rw [Entity.get_component_eq e s1 T r hs, hg]
    simp only
    rw [if_pos hh, hget]
  · rw [Entity.has_component_eq e s1 T r hs, hg]
    simp only
    rw [hh]
  · refine ⟨{ s1 with pools_ := s1.pools.store T p'' }, ?_, ?_⟩
    · rw [Entity.remove_component_eq e s1 T r hs, hg]
      simp only
      rw [if_pos hh, hrm]
    · rw [Entity.has_component_eq e _ T r hs]
      have hg2 : (Scene.pools { s1 with pools_ := s1.pools.store T p'' }).get T = some p'' :=
        ComponentPools.get_store _ _ _ _ hg
      rw [hg2]
      simp only
      rw [hh2]

/-- C4 at a concrete input: component 42 of type 7 on the first entity of a scene
without pools. -/
theorem C4_add_get_remove_round_trip_witness :
    first_entity.has_component empty_scene 7 = .ok false ∧
    ∃ s1, first_entity.add_component empty_scene 7 42 = .ok (s1, 42) ∧
      first_entity.get_component s1 7 = .ok 42 ∧
      first_entity.has_component s1 7 = .ok true ∧
      ∃ s2, first_entity.remove_component s1 7 = .ok s2 ∧
        first_entity.has_component s2 7 = .ok false :=
  ⟨by decide, C4_add_get_remove_round_trip first_entity empty_scene 7 42 (by decide)⟩

/-- C5: `Entity::remove_component` is tolerant. For every entity holding a scene
reference and every component type: if the registry has no pool for the type,
or the pool for the type holds no component for the entity's id, the call
returns without error and the scene (registry and every pool) is unchanged;
only in the remaining case, a pool that holds the id, the result is that of
the pool's strict `remove`, so the call never fails with `MissingComponent`. -/
theorem C5_remove_component_tolerant (e : Entity) (s : Scene V) (t : TypeKey) (r : SceneRef)
    (hs : e.scene_ = some r) :
    (s.pools.contains t = false → e.remove_component s t = .ok s) ∧
    (∀ pool, s.pools.get t = some pool → pool.has_component e.id = false →
      e.remove_component s t = .ok s) ∧
    (∀ pool, s.pools.get t = some pool → pool.has_component e.id = true →
      e.remove_component s t =
        match pool.remove e.id with
        | .error f => .error f
        | .ok pool' => .ok { s with pools_ := s.pools.store t pool' }) ∧
    e.remove_component s t ≠ .error .MissingComponent := by
  have heq := Entity.remove_component_eq e s t r hs
  refine ⟨?_, ?_, ?_, ?_⟩
  · intro hc
    rw [ComponentPools.contains_eq] at hc
    have hg : s.pools.get t = none := by simpa using hc
    rw [heq, hg]
  · intro pool hg hh
    have hh' : pool.has_component e.id_ = false := hh
    rw [heq, hg]
    simp [hh']
  · intro pool hg hh
    have hh' : pool.has_component e.id_ = true := hh
    rw [heq, hg]
    simp only
    rw [if_pos hh']
    rfl
  · rw [heq]
    cases hg : s.pools.get t with
    | none => simp
    | some pool =>
      simp only
      cases hh : pool.has_component e.id_ with
      | false => simp
      | true =>
        simp only [if_true]
        cases hr : pool.remove e.id_ with
        | ok p' => simp
        | error f =>
          simp only [ne_eq, Except.error.injEq]
          intro hf
          subst hf
          have := (ComponentPool.remove_missing_iff pool e.id_).1 hr
          rw [hh] at this
          cases this

/-- C5 at a concrete input: the first entity and a scene without pools. -/
theorem C5_remove_component_tolerant_witness :
    first_entity.scene_ = some 0 ∧
    first_entity.remove_component empty_scene 7 = .ok empty_scene :=
  ⟨by decide,
   (C5_remove_component_tolerant first_entity empty_scene 7 0 (by decide)).1 (by decide)⟩

end FacadeRoundTrip

section FacadeQueries

variable {V : Type}

/-- The scene invariant is kept by `add_component(T&&)`. -/
theorem Entity.add_component_wf (e : Entity) (s s1 : Scene V) (T : TypeKey) (v c : V)
    (hw : s.wf) (h : e.add_component s T v = .ok (s1, c)) : s1.wf := by
  cases hs : e.scene_ with
  | none => simp [Entity.add_component, hs] at h
  | some r =>
    rw [Entity.add_component_eq e s T v r hs] at h
    cases hg : s.pools.get T with
    | some pool =>
      rw [hg] at h
      simp only at h
      cases ha : pool.add e.id_ v with
      | error f => rw [ha] at h; cases h
      | ok res =>
        obtain ⟨pool', c'⟩ := res
        rw [ha] at h
        simp only [Except.ok.injEq, Prod.mk.injEq] at h
        obtain ⟨h1, _⟩ := h
        subst h1
        exact ComponentPools.store_wf _ _ _ hw
          (ComponentPool.add_wf pool pool' e.id_ v c' (ComponentPools.wf_get _ _ _ hw hg) ha)
    | none =>
      rw [hg] at h
      simp only at h
      cases ha : (ComponentPool.empty : ComponentPool V).add e.id_ v with
      | error f => rw [ha] at h; cases h
      | ok res =>
        obtain ⟨pool', c'⟩ := res
        rw [ha] at h
        simp only [Except.ok.injEq, Prod.mk.injEq] at h
        obtain ⟨h1, _⟩ := h
        subst h1
        refine ComponentPools.store_wf _ _ _ ?_
          (ComponentPool.add_wf _ pool' e.id_ v c' ComponentPool.empty_wf ha)
        have he : Entity.ensure_pool s.pools T
            = .ok (ComponentPools.mk (Map.insert s.pools.pools_ T ComponentPool.empty)) := by
          rw [Entity.ensure_pool_eq, hg]
        exact Entity.ensure_pool_wf _ _ T hw he

/-- The scene invariant is kept by `remove_component`. -/
theorem Entity.remove_component_wf (e : Entity) (s s1 : Scene V) (t : TypeKey)
    (hw : s.wf) (h : e.remove_component s t = .ok s1) : s1.wf := by
  cases hs : e.scene_ with
  | none => simp [Entity.remove_component, hs] at h
  | some r =>
    rw [Entity.remove_component_eq e s t r hs] at h
    cases hg : s.pools.get t with
    | none =>
      rw [hg] at h
      simp only [Except.ok.injEq] at h
      subst h
      exact hw
    | some pool =>
      rw [hg] at h
      simp only at h
      cases hh : pool.has_component e.id_ with
      | false =>
        rw [hh] at h
        simp only [Bool.false_eq_true, if_false, Except.ok.injEq] at h
        subst h
        exact hw
      | true =>
        rw [hh] at h
        simp only [if_true] at h
        cases hr : pool.remove e.id_ with
        | error f => rw [hr] at h; cases h
        | ok pool' =>
          rw [hr] at h
          simp only [Except.ok.injEq] at h
          subst h
          exact ComponentPools.store_wf _ _ _ hw
            (ComponentPool.remove_wf pool pool' e.id_ (ComponentPools.wf_get _ _ _ hw hg) hr)

/-- C6: `Entity::get_component<T>()` on an entity holding a scene reference, in a
scene whose pools satisfy the sparse/dense invariant, fails if and only if the
registry has no pool for T or the pool for T holds no component for the
entity's id; otherwise it succeeds and returns exactly what the pool's `get`
gives for that id. -/
theorem C6_get_component_fails_iff (e : Entity) (s : Scene V) (T : TypeKey) (r : SceneRef)
    (hs : e.scene_ = some r) (hw : s.wf) :
    ((∃ f, e.get_component s T = .error f) ↔
      (s.pools.contains T = false ∨
        ∃ pool, s.pools.get T = some pool ∧ pool.has_component e.id = false)) ∧
    (∀ pool, s.pools.get T = some pool → pool.has_component e.id = true →
      ∃ c, pool.get e.id = .ok c ∧ e.get_component s T = .ok c) := by
  have heq := Entity.get_component_eq e s T r hs
  have key : ∀ pool, s.pools.get T = some pool → pool.has_component e.id = true →
      ∃ c, pool.get e.id = .ok c ∧ e.get_component s T = .ok c := by
    intro pool hg hh
    have hh' : pool.has_component e.id_ = true := hh
    obtain ⟨c, hc⟩ := ComponentPool.get_of_wf pool e.id_ (ComponentPools.wf_get _ _ _ hw hg) hh'
    refine ⟨c, hc, ?_⟩
    rw [heq, hg]
    simp only
    rw [if_pos hh', hc]
  refine ⟨⟨?_, ?_⟩, key⟩
  · rintro ⟨f, hf⟩
    cases hg : s.pools.get T with
    | none =>
      left
      rw [ComponentPools.contains_eq, hg]
      rfl
    | some pool =>
      right
      refine ⟨pool, rfl, ?_⟩
      cases hh : pool.has_component e.id with
      | false => rfl
      | true =>
        obtain ⟨c, _, hc⟩ := key pool hg hh
        rw [hc] at hf
        cases hf
  · rintro (hc | ⟨pool, hg, hh⟩)
    · rw [ComponentPools.contains_eq] at hc
      have hg : s.pools.get T = none := by simpa using hc
      exact ⟨.terminate, by rw [heq, hg]⟩
    · have hh' : pool.has_component e.id_ = false := hh
      refine ⟨.terminate, ?_⟩
      rw [heq, hg]
      simp [hh']

/-- C6 at a concrete input: the first entity in the scene in which it carries
component 42 of type 7, where `get_component` returns 42. -/
theorem C6_get_component_fails_iff_witness :
    first_entity.scene_ = some 0 ∧ populated_scene.wf ∧
    ∀ pool, populated_scene.pools.get 7 = some pool →
      pool.has_component first_entity.id = true →
      ∃ c, pool.get first_entity.id = .ok c ∧
        first_entity.get_component populated_scene 7 = .ok c :=
  ⟨by decide, by decide,
   (C6_get_component_fails_iff first_entity populated_scene 7 0 (by decide) (by decide)).2⟩

/-- C7, against the claim as stated: an entity made by the copy constructor
holds no scene reference, and `has_component` on it dereferences the empty
`scene_` instead of returning a boolean. -/
theorem C7_has_component_copy_constructed_fails :
    Entity.has_component (Entity.Entity_copy 0 first_entity) empty_scene 7
      = .error .null_access := by
  decide

/-- C7, amended: `Entity::has_component` is a total query on every entity that
holds a scene reference. For every such entity and every component type it
returns a boolean and never fails; it returns false when the registry has no
pool for the type, and otherwise returns exactly whether that pool holds the
entity's id. -/
theorem C7_has_component_total_with_scene (e : Entity) (s : Scene V) (t : TypeKey) (r : SceneRef)
    (hs : e.scene_ = some r) :
    (∃ b, e.has_component s t = .ok b) ∧
    (s.pools.contains t = false → e.has_component s t = .ok false) ∧
    (∀ pool, s.pools.get t = some pool →
      e.has_component s t = .ok (pool.has_component e.id)) := by
  have heq := Entity.has_component_eq e s t r hs
  refine ⟨⟨_, heq⟩, ?_, ?_⟩
  · intro hc
    rw [ComponentPools.contains_eq] at hc
    have hg : s.pools.get t = none := by simpa using hc
    rw [heq, hg]
  · intro pool hg
    rw [heq, hg]
    rfl

/-- C7 amended, at a concrete input: the first entity, built by `Entity(scene)`,
in a scene without pools. -/
theorem C7_has_component_total_with_scene_witness :
    first_entity.scene_ = some 0 ∧
    first_entity.has_component empty_scene 7 = .ok false :=
  ⟨by decide,
   (C7_has_component_total_with_scene first_entity empty_scene 7 0 (by decide)).2.1
     (by decide)⟩

end FacadeQueries

/-! ## Lookup by name -/

section FindByName

theorem find_if_le {α : Type} (p : α → Bool) (l : List α) : find_if p l ≤ l.length := by
  induction l with
  | nil => simp [find_if]
  | cons a as ih =>
    by_cases h : p a = true
    · simp [find_if, h]
    · simp [find_if, h, ih]

/-- The position `find_if` returns is the end exactly when no element satisfies the
predicate. -/
theorem find_if_eq_length_iff {α : Type} (p : α → Bool) (l : List α) :
    find_if p l = l.length ↔ ∀ a ∈ l, p a = false := by
  induction l with
  | nil => simp [find_if]
  | cons a as ih =>
    by_cases h : p a = true
    · simp [find_if, h]
    · simp [find_if, h, ih]

/-- Before the end, the position `find_if` returns holds an element that satisfies
the predicate, and no element before that position does. -/
theorem find_if_split {α : Type} (p : α → Bool) (l : List α) (h : find_if p l ≠ l.length) :
    ∃ pre a post, l = pre ++ a :: post ∧ pre.length = find_if p l ∧ p a = true ∧
      ∀ b ∈ pre, p b = false := by
  induction l with
  | nil => simp [find_if] at h
  | cons a as ih =>
    by_cases hp : p a = true
    · exact ⟨[], a, as, rfl, by simp [find_if, hp], hp, by simp⟩
    · have h' : find_if p as ≠ as.length := by
        intro hc
        apply h
        simp [find_if, hp, hc]
      obtain ⟨pre, x, post, h1, h2, h3, h4⟩ := ih h'
      refine ⟨a :: pre, x, post, by rw [h1]; rfl, by simp [find_if, hp, h2], h3, ?_⟩
      intro b hb
      rcases List.mem_cons.1 hb with hb | hb
      · subst hb; simpa using hp
      · exact h4 b hb

/-- The traversal of the spec's example: root children A and B, A with child A1,
are visited in the order A, A1, B. -/
theorem traversal_forest_example (a a1 b : Entity) :
    traversal_forest [Node.mk a [Node.mk a1 []], Node.mk b []]
      = [Node.mk a [Node.mk a1 []], Node.mk a1 [], Node.mk b []] := by
  simp [traversal_forest, Node.traversal]

theorem Entities.find_const_eq (d : Entities) (name : String) :
    d.find_const name = d.find name := rfl

/-- C9: `Entities::find(name)` returns the first node, in the tree's traversal
order, whose entity name equals `name`, and returns absent if and only if no
node of the tree has that name; with duplicate names the earliest node in
traversal order is returned. The traversal is pre-order: a node comes before
the traversal of its children, and sibling subtrees follow one another from
left to right. The const overload returns the same. -/
theorem C9_find_first_in_traversal (d : Entities) (name : String) :
    (d.find name = none ↔ ∀ n ∈ d.tree_.traversal, n.get.name ≠ name) ∧
    (∀ n, d.find name = some n →
      ∃ pre post, d.tree_.traversal = pre ++ n :: post ∧ n.get.name = name ∧
        ∀ m ∈ pre, m.get.name ≠ name) ∧
    ((∃ n ∈ d.tree_.traversal, n.get.name = name) → ∃ n, d.find name = some n) ∧
    d.find_const name = d.find name ∧
    (∀ (v : Entity) (cs : List Node),
      Node.traversal (Node.mk v cs) = Node.mk v cs :: traversal_forest cs) ∧
    (∀ (n : Node) (ns : List Node),
      traversal_forest (n :: ns) = Node.traversal n ++ traversal_forest ns) ∧
    d.tree_.traversal = traversal_forest d.tree_.children_ := by
  have hnone : d.find name = none ↔ ∀ n ∈ d.tree_.traversal, n.get.name ≠ name := by
    unfold Entities.find
    simp only
    by_cases hit : find_if (fun p => p.get.name == name) d.tree_.traversal
        = d.tree_.traversal.length
    · have hall := (find_if_eq_length_iff _ _).1 hit
      simp only [hit, bne_self_eq_false, Bool.not_false, if_true, true_iff]
      intro n hn
      simpa using hall n hn
    · have hne : ¬ ∀ a ∈ d.tree_.traversal, (fun p => p.get.name == name) a = false :=
        fun hall => hit ((find_if_eq_length_iff _ _).2 hall)
      have hlt : find_if (fun p => p.get.name == name) d.tree_.traversal
          < d.tree_.traversal.length :=
        lt_of_le_of_ne (find_if_le _ _) hit
      have hb : (!(find_if (fun p => p.get.name == name) d.tree_.traversal
          != d.tree_.traversal.length)) = false := by simp [hit]
      rw [hb]
      simp only [Bool.false_eq_true, if_false, List.getElem?_eq_getElem hlt]
      constructor
      · intro h; cases h
      · intro hall
        exact absurd (fun a ha => by simpa using hall a ha) hne
  have hsome : ∀ n, d.find name = some n →
      ∃ pre post, d.tree_.traversal = pre ++ n :: post ∧ n.get.name = name ∧
        ∀ m ∈ pre, m.get.name ≠ name := by
    intro n hn
    unfold Entities.find at hn
    simp only at hn
    by_cases hit : find_if (fun p => p.get.name == name) d.tree_.traversal
        = d.tree_.traversal.length
    · simp [hit] at hn
    · obtain ⟨pre, a, post, h1, h2, h3, h4⟩ := find_if_split _ _ hit
      have hb : (!(find_if (fun p => p.get.name == name) d.tree_.traversal
          != d.tree_.traversal.length)) = false := by simp [hit]
      rw [hb] at hn
      simp only [Bool.false_eq_true, if_false] at hn
      rw [← h2] at hn
      have hget : d.tree_.traversal[pre.length]? = some a := by
        rw [h1, List.getElem?_append_right (Nat.le_refl _)]
        simp
      rw [hget] at hn
      simp only [Option.some.injEq] at hn
      subst hn
      refine ⟨pre, post, h1, by simpa using h3, ?_⟩
      intro m hm
      simpa using h4 m hm
  refine ⟨hnone, hsome, ?_, rfl, ?_, ?_, rfl⟩
  · rintro ⟨n, hn, hname⟩
    cases hf : d.find name with
    | some m => exact ⟨m, rfl⟩
    | none => exact absurd hname (hnone.1 hf n hn)
  · intro v cs
    simp [Node.traversal]
  · intro n ns
    simp [traversal_forest]

end FindByName

/-! ## Entities at references: updates of one entity -/

section TreeUpdates

theorem getElem?_lt_of_some {α : Type} (l : List α) (i : Nat) (a : α) (h : l[i]? = some a) :
    i < l.length := by
  by_contra hc
  rw [List.getElem?_eq_none (Nat.le_of_not_lt hc)] at h
  cases h

/-- After an update at `r`, the node at `r` wraps the updated entity and owns the
children it owned. -/
theorem node_at_update_at_self (f : Entity → Entity) :
    ∀ (r : Reference) (ns : List Node),
      node_at (update_at f ns r) r
        = (node_at ns r).map (fun n => Node.mk (f n.get) n.children)
  | [], ns => by simp [node_at, update_at]
  | [i], ns => by
    simp only [update_at, node_at]
    cases h : ns[i]? with
    | none => simp [h]
    | some n =>
      simp only [Option.map_some']
      exact List.getElem?_set_self (getElem?_lt_of_some ns i n h)
  | i :: j :: rest, ns => by
    simp only [update_at, node_at]
    cases h : ns[i]? with
    | none => simp [h]
    | some n =>
      simp only
      rw [List.getElem?_set_self (getElem?_lt_of_some ns i n h)]
      simp only
      exact node_at_update_at_self f (j :: rest) n.children

/-- After an update at `r`, the entity at `r` is the updated one. -/
theorem entity_at_update_at_self (f : Entity → Entity) (r : Reference) (ns : List Node) :
    entity_at (update_at f ns r) r = (entity_at ns r).map f := by
  unfold entity_at
  rw [node_at_update_at_self]
  cases node_at ns r <;> simp [Node.get]

/-- An update at `r` leaves the entity at every other reference as it was. -/
theorem entity_at_update_at_other (f : Entity → Entity) :
    ∀ (r r' : Reference) (ns : List Node), r' ≠ r →
      entity_at (update_at f ns r) r' = entity_at ns r'
  | [], _, ns, _ => by simp [update_at]
  | [i], [], ns, _ => by simp [entity_at, node_at]
  | [i], [i'], ns, hne => by
    have hi : i ≠ i' := fun h => hne (by rw [h])
    simp only [entity_at, update_at, node_at]
    cases h : ns[i]? with
    | none => rfl
    | some n =>
      simp only
      rw [List.getElem?_set_ne hi]
  | [i], i' :: j' :: rest', ns, _ => by
    simp only [entity_at, update_at, node_at]
    cases h : ns[i]? with
    | none => rfl
    | some n =>
      simp only
      by_cases hi : i = i'
      · subst hi
        rw [List.getElem?_set_self (getElem?_lt_of_some ns i n h), h]
        rfl
      · rw [List.getElem?_set_ne hi]
  | i :: j :: rest, [], ns, _ => by simp [entity_at, node_at]
  | i :: j :: rest, [i'], ns, _ => by
    simp only [entity_at, update_at, node_at]
    cases h : ns[i]? with
    | none => rfl
    | some n =>
      simp only
      by_cases hi : i = i'
      · subst hi
        rw [List.getElem?_set_self (getElem?_lt_of_some ns i n h), h]
        rfl
      · rw [List.getElem?_set_ne hi]
  | i :: j :: rest, i' :: j' :: rest', ns, hne => by
    simp only [entity_at, update_at, node_at]
    cases h : ns[i]? with
    | none => rfl
    | some n =>
      simp only
      by_cases hi : i = i'
      · subst hi
        have hne' : j' :: rest' ≠ j :: rest := fun hc => hne (by rw [hc])
        rw [List.getElem?_set_self (getElem?_lt_of_some ns i n h), h]
        exact entity_at_update_at_other f (j :: rest) (j' :: rest') n.children hne'
      · rw [List.getElem?_set_ne hi]

/-- An update at `r` keeps the number of children of every node, the updated one
included. -/
theorem node_at_update_at_children (f : Entity → Entity) (r : Reference) (ns : List Node) :
    (node_at (update_at f ns r) r).map Node.children = (node_at ns r).map Node.children := by
  rw [node_at_update_at_self]
  cases node_at ns r <;> simp [Node.children]

end TreeUpdates

/-! ## Copying and moving entities -/

section CopyMove

/-- C11, as the code behaves: `Entity::copy` assigns `enabled_`, `layer_` and
`name_` but not `tags_` (which `Entity::move` does assign). The entity produced
by `Entities::emplace(const Entity&)` has the name, layer and enabled flag of
the source and no tags; copy assignment gives the target the name, layer and
enabled flag of the source and leaves the target's own tags. For a source
tagged "hero" the copy's tags differ from the source's. -/
theorem C11_copy_leaves_tags_behind :
    (∀ (d : Entities) (u g : Int) (s : Entity),
      (d.emplace_copy u g s).node.get.name = s.name ∧
      (d.emplace_copy u g s).node.get.current_layer = s.current_layer ∧
      (d.emplace_copy u g s).node.get.is_enabled = s.is_enabled ∧
      (d.emplace_copy u g s).node.get.tags = []) ∧
    (∀ (self s : Entity),
      (self.operator_assign_copy s).name = s.name ∧
      (self.operator_assign_copy s).current_layer = s.current_layer ∧
      (self.operator_assign_copy s).is_enabled = s.is_enabled ∧
      (self.operator_assign_copy s).tags = self.tags) ∧
    (fresh_entities.emplace_copy 0 0 tagged_entity).node.get.tags ≠ tagged_entity.tags ∧
    (first_entity.operator_assign_copy tagged_entity).tags ≠ tagged_entity.tags := by
  refine ⟨fun _ _ _ _ => ⟨rfl, rfl, rfl, rfl⟩, fun _ _ => ⟨rfl, rfl, rfl, rfl⟩, ?_, ?_⟩
  · decide
  · decide

/-- The tree after `emplace(Entity&&)`: the root-level nodes as before, followed by
one node without children around the move-constructed entity; the reference
returned is the position of that node. -/
theorem Entities.emplace_move_tree (d : Entities) (u g : Int) (s : Entity) :
    (d.emplace_move u g s).entities.tree_.children_
      = d.tree_.children_ ++ [Node.mk (Entity.Entity_move g s) []] ∧
    (d.emplace_move u g s).ref = [d.tree_.children_.length] ∧
    (d.emplace_move u g s).node = Node.mk (Entity.Entity_move g s) [] ∧
    node_at (d.emplace_move u g s).entities.tree_.children_ (d.emplace_move u g s).ref
      = some (d.emplace_move u g s).node := by
  refine ⟨rfl, rfl, rfl, ?_⟩
  simp [Entities.emplace_move, Tree.emplace_back, node_at]

/-- C12: moving an entity transfers its metadata. `Entities::emplace(Entity&&)`
appends to the root level of the tree one node, to which the reference
returned refers, and the entity stored in the tree at that reference has
name, tags, layer and enabled flag equal to those of the source; so have the
entity built by the move constructor and the target of a move assignment. -/
theorem C12_move_transfers_metadata (s : Entity) :
    (∀ (d : Entities) (u g : Int),
      (d.emplace_move u g s).node.get.name = s.name ∧
      (d.emplace_move u g s).node.get.tags = s.tags ∧
      (d.emplace_move u g s).node.get.current_layer = s.current_layer ∧
      (d.emplace_move u g s).node.get.is_enabled = s.is_enabled) ∧
    (∀ (g : Int),
      (Entity.Entity_move g s).name = s.name ∧
      (Entity.Entity_move g s).tags = s.tags ∧
      (Entity.Entity_move g s).current_layer = s.current_layer ∧
      (Entity.Entity_move g s).is_enabled = s.is_enabled) ∧
    (∀ (self : Entity),
      (self.operator_assign_move s).name = s.name ∧
      (self.operator_assign_move s).tags = s.tags ∧
      (self.operator_assign_move s).current_layer = s.current_layer ∧
      (self.operator_assign_move s).is_enabled = s.is_enabled) ∧
    (∀ (d : Entities) (u g : Int),
      (d.emplace_move u g s).entities.tree_.children_
        = d.tree_.children_ ++ [(d.emplace_move u g s).node] ∧
      node_at (d.emplace_move u g s).entities.tree_.children_ (d.emplace_move u g s).ref
        = some (d.emplace_move u g s).node ∧
      ∃ e, entity_at (d.emplace_move u g s).entities.tree_.children_ (d.emplace_move u g s).ref
          = some e ∧
        e.name = s.name ∧ e.tags = s.tags ∧ e.current_layer = s.current_layer ∧
        e.is_enabled = s.is_enabled) := by
  refine ⟨fun _ _ _ => ⟨rfl, rfl, rfl, rfl⟩, fun _ => ⟨rfl, rfl, rfl, rfl⟩,
    fun _ => ⟨rfl, rfl, rfl, rfl⟩, ?_⟩
  intro d u g
  obtain ⟨h1, _, h3, h4⟩ := Entities.emplace_move_tree d u g s
  refine ⟨by rw [h1, h3], h4, Entity.Entity_move g s, ?_, rfl, rfl, rfl, rfl⟩
  unfold entity_at
  rw [h4, h3]
  rfl

variable {V : Type}

/-- A member function called through `assign` leaves the scene and the static
counter as they were. -/
theorem World.assign_scene (w w' : World V) (ref : Reference) (f : Entity → Entity)
    (h : w.assign ref f = .ok w') : w'.scene = w.scene ∧ w'.unique_id_ = w.unique_id_ := by
  unfold World.assign at h
  cases he : w.entity_at ref with
  | none => rw [he] at h; cases h
  | some e =>
    rw [he] at h
    simp only [Except.ok.injEq] at h
    subst h
    exact ⟨rfl, rfl⟩

/-- A member function called through `assign` succeeds on every reference that
refers to an entity. -/
theorem World.assign_ok (w : World V) (ref : Reference) (f : Entity → Entity) (e : Entity)
    (h : w.entity_at ref = some e) : ∃ w', w.assign ref f = .ok w' := by
  unfold World.assign
  rw [h]
  exact ⟨_, rfl⟩

/-- C13: copying or moving an entity never duplicates components. For every
world and every source entity, `Entities::emplace(const Entity&)`,
`Entities::emplace(Entity&&)`, copy assignment and move assignment to an entity
of the tree leave the scene, hence the pool registry and every pool, as they
were, so `has_component` answers for every entity and type what it answered
before. -/
theorem C13_copy_move_leave_pools (w : World V) (g : Int) (s : Entity) :
    (w.emplace_copy g s).1.scene = w.scene ∧
    (w.emplace_move g s).1.scene = w.scene ∧
    (∀ (ref : Reference) (w' : World V),
      w.assign ref (fun e => e.operator_assign_copy s) = .ok w' → w'.scene = w.scene) ∧
    (∀ (ref : Reference) (w' : World V),
      w.assign ref (fun e => e.operator_assign_move s) = .ok w' → w'.scene = w.scene) ∧
    (∀ (e : Entity) (T : TypeKey),
      e.has_component (w.emplace_copy g s).1.scene T = e.has_component w.scene T ∧
      e.has_component (w.emplace_move g s).1.scene T = e.has_component w.scene T) := by
  refine ⟨rfl, rfl, ?_, ?_, fun _ _ => ⟨rfl, rfl⟩⟩
  · intro ref w' h
    exact (World.assign_scene w w' ref _ h).1
  · intro ref w' h
    exact (World.assign_scene w w' ref _ h).1

end CopyMove

/-! ## Frame properties of the entity's own operations -/

section Frames

variable {V : Type}

/-- A facade function called through `facade` leaves the directory, hence the
tree and every entity in it, and the static counter as they were. -/
theorem World.facade_entities {α : Type} (w w' : World V) (ref : Reference)
    (op : Entity → Scene V → Except Fault (Scene V × α)) (a : α)
    (h : w.facade ref op = .ok (w', a)) :
    w'.entities = w.entities ∧ w'.unique_id_ = w.unique_id_ ∧
    ∃ e, w.entity_at ref = some e ∧ op e w.scene = .ok (w'.scene, a) := by
  unfold World.facade at h
  cases he : w.entity_at ref with
  | none => rw [he] at h; cases h
  | some e =>
    rw [he] at h
    simp only at h
    cases ho : op e w.scene with
    | error f => rw [ho] at h; cases h
    | ok res =>
      obtain ⟨s, a'⟩ := res
      rw [ho] at h
      simp only [Except.ok.injEq, Prod.mk.injEq] at h
      obtain ⟨h1, h2⟩ := h
      subst h1; subst h2
      exact ⟨rfl, rfl, e, rfl, ho⟩

theorem World.entity_at_of_entities (w w' : World V) (ref : Reference)
    (h : w'.entities = w.entities) : w'.entity_at ref = w.entity_at ref := by
  unfold World.entity_at
  rw [h]

/-- C15: an entity's id is immutable after creation. None of `name(n)`,
`current_layer(l)`, `is_enabled(v)`, `enable()`, `disable()`, copy assignment
and move assignment from another entity changes `id()`; `add_component` (both
overloads) and `remove_component`, called on an entity of the tree, leave that
entity, its id included, as it was. -/
theorem C15_id_immutable :
    (∀ (e : Entity) (n : String), (e.set_name n).id = e.id) ∧
    (∀ (e : Entity) (l : Int), (e.set_current_layer l).id = e.id) ∧
    (∀ (e : Entity) (v : Bool), (e.set_is_enabled v).id = e.id) ∧
    (∀ (e : Entity), e.enable.id = e.id ∧ e.disable.id = e.id) ∧
    (∀ (e src : Entity),
      (e.operator_assign_copy src).id = e.id ∧ (e.operator_assign_move src).id = e.id) ∧
    (∀ (W : Type) (w w' : World W) (ref : Reference) (T : TypeKey) (v c : W),
      (w.facade ref (fun e s => e.add_component s T v) = .ok (w', c) ∨
       w.facade ref (fun e s => e.add_component_args s T v) = .ok (w', c)) →
      w'.entity_at ref = w.entity_at ref ∧
      (w'.entity_at ref).map Entity.id = (w.entity_at ref).map Entity.id) ∧
    (∀ (W : Type) (w w' : World W) (ref : Reference) (T : TypeKey),
      w.facade ref (fun e s => (e.remove_component s T).map (fun s' => (s', ())))
        = .ok (w', ()) →
      w'.entity_at ref = w.entity_at ref ∧
      (w'.entity_at ref).map Entity.id = (w.entity_at ref).map Entity.id) := by
  refine ⟨fun _ _ => rfl, fun _ _ => rfl, fun _ _ => rfl, fun _ => ⟨rfl, rfl⟩,
    fun _ _ => ⟨rfl, rfl⟩, ?_, ?_⟩
  · intro W w w' ref T v c h
    have hent : w'.entities = w.entities := by
      rcases h with h | h
      · exact (World.facade_entities w w' ref _ c h).1
      · exact (World.facade_entities w w' ref _ c h).1
    have := World.entity_at_of_entities w w' ref hent
    exact ⟨this, by rw [this]⟩
  · intro W w w' ref T h
    have := World.entity_at_of_entities w w' ref (World.facade_entities w w' ref _ () h).1
    exact ⟨this, by rw [this]⟩

/-- A member function called through `assign` updates the entity at the reference
and leaves the entity at every other reference as it was. -/
theorem World.assign_entity_at (w w' : World V) (ref : Reference) (f : Entity → Entity)
    (h : w.assign ref f = .ok w') :
    w'.entity_at ref = (w.entity_at ref).map f ∧
    ∀ ref', ref' ≠ ref → w'.entity_at ref' = w.entity_at ref' := by
  unfold World.assign at h
  cases he : w.entity_at ref with
  | none => rw [he] at h; cases h
  | some e =>
    rw [he] at h
    simp only [Except.ok.injEq] at h
    subst h
    refine ⟨?_, ?_⟩
    · have := entity_at_update_at_self f ref w.entities.tree_.children_
      unfold World.entity_at at he ⊢
      rw [he] at this
      exact this
    · intro ref' hne
      exact entity_at_update_at_other f ref ref' w.entities.tree_.children_ hne

theorem Reference.child_ne (ref : Reference) (i : Nat) : ref ++ [i] ≠ ref := by
  intro h
  have := congrArg List.length h
  simp at this

/-- C19: the enable flag is per-entity and does not cascade. After `enable()`
`is_enabled()` is true, after `disable()` false, after `is_enabled(v)` it is v;
id, name, tags, layer and depth of the entity are unchanged. Called on an
entity of the tree, each of the three succeeds, sets the flag of that entity,
and leaves the entity at every other reference, its children among them, and
the scene as they were. -/
theorem C19_enable_flag_per_entity :
    (∀ (e : Entity), e.enable.is_enabled = true ∧ e.disable.is_enabled = false ∧
      ∀ v, (e.set_is_enabled v).is_enabled = v) ∧
    (∀ (e : Entity) (f : Entity → Entity),
      (f = Entity.enable ∨ f = Entity.disable ∨ ∃ v, f = fun x => x.set_is_enabled v) →
      (f e).id = e.id ∧ (f e).name = e.name ∧ (f e).tags = e.tags ∧
      (f e).current_layer = e.current_layer ∧ (f e).depth = e.depth) ∧
    (∀ (W : Type) (w : World W) (ref : Reference) (e : Entity) (f : Entity → Entity),
      (f = Entity.enable ∨ f = Entity.disable ∨ ∃ v, f = fun x => x.set_is_enabled v) →
      w.entity_at ref = some e →
      ∃ w', w.assign ref f = .ok w' ∧
        w'.entity_at ref = some (f e) ∧
        (∀ ref', ref' ≠ ref → w'.entity_at ref' = w.entity_at ref') ∧
        (∀ i, w'.entity_at (ref ++ [i]) = w.entity_at (ref ++ [i])) ∧
        w'.scene = w.scene) := by
  refine ⟨fun e => ⟨rfl, rfl, fun _ => rfl⟩, ?_, ?_⟩
  · intro e f hf
    rcases hf with hf | hf | ⟨v, hf⟩ <;> subst hf <;> exact ⟨rfl, rfl, rfl, rfl, rfl⟩
  · intro W w ref e f _ he
    obtain ⟨w', hw'⟩ := World.assign_ok w ref f e he
    obtain ⟨h1, h2⟩ := World.assign_entity_at w w' ref f hw'
    refine ⟨w', hw', ?_, h2, fun i => h2 _ (Reference.child_ne ref i),
      (World.assign_scene w w' ref f hw').1⟩
    rw [h1, he]
    rfl

end Frames

/-! ## Queries and destruction -/

section QueryDestroy

variable {V : Type}

/-- The overload `add_component(Args&&...)` succeeds when the registry has no pool
for the type, and afterwards the registry has one. -/
theorem Entity.add_component_args_creates_pool (e : Entity) (s : Scene V) (T : TypeKey) (v : V)
    (r : SceneRef) (hs : e.scene_ = some r) (hc : s.pools.contains T = false) :
    ∃ s1 c, e.add_component_args s T v = .ok (s1, c) ∧ s1.pools.contains T = true := by
  rw [ComponentPools.contains_eq] at hc
  have hg : s.pools.get T = none := by simpa using hc
  have hadd := ComponentPool.add_of_not_has (ComponentPool.empty : ComponentPool V) e.id_ v rfl
  have hok : ∃ s1 c, e.add_component_args s T v = .ok (s1, c) := by
    rw [Entity.add_component_args_eq e s T v r hs, hg]
    simp only
    rw [hadd]
    exact ⟨_, _, rfl⟩
  obtain ⟨s1, c, h⟩ := hok
  obtain ⟨_, pool', _, hg1, _, _⟩ := Entity.after_add_component_args e s s1 T v c h
  exact ⟨s1, c, h, by rw [ComponentPools.contains_eq, hg1]; rfl⟩

/-- C18: `Entity::has_component` is a pure query. Called on an entity of the tree
that holds a scene reference, for every component type, it succeeds and the
world afterwards is the world before: the pool registry and every pool are
unchanged. When the registry has no pool for the type it answers false and the
registry still has none, whereas `add_component` in the same state creates the
pool; when there is a pool it answers whether that pool holds the entity's id. -/
theorem C18_has_component_pure (w : World V) (ref : Reference) (T : TypeKey) (e : Entity)
    (r : SceneRef) (he : w.entity_at ref = some e) (hs : e.scene_ = some r) :
    (∃ b, w.query ref (fun x s => x.has_component s T) = .ok (w, b) ∧
      (w.scene.pools.contains T = false → b = false) ∧
      (∀ pool, w.scene.pools.get T = some pool → b = pool.has_component e.id)) ∧
    (∀ w' b, w.query ref (fun x s => x.has_component s T) = .ok (w', b) →
      w'.scene = w.scene ∧ w'.entities = w.entities ∧ w'.unique_id_ = w.unique_id_) ∧
    (w.scene.pools.contains T = false → ∀ v, ∃ w1 c,
      w.facade ref (fun x s => x.add_component_args s T v) = .ok (w1, c) ∧
      w1.scene.pools.contains T = true) := by
  have heq := Entity.has_component_eq e w.scene T r hs
  have hq : w.query ref (fun x s => x.has_component s T)
      = .ok (w, match w.scene.pools.get T with
                | none => false
                | some pool => pool.has_component e.id_) := by
    unfold World.query
    rw [he]
    simp only
    rw [heq]
  refine ⟨⟨_, hq, ?_, ?_⟩, ?_, ?_⟩
  · intro hc
    rw [ComponentPools.contains_eq] at hc
    have hg : w.scene.pools.get T = none := by simpa using hc
    rw [hg]
  · intro pool hg
    rw [hg]
    rfl
  · intro w' b h
    rw [hq] at h
    simp only [Except.ok.injEq, Prod.mk.injEq] at h
    obtain ⟨h1, _⟩ := h
    subst h1
    exact ⟨rfl, rfl, rfl⟩
  · intro hc v
    obtain ⟨s1, c, h1, h2⟩ := Entity.add_component_args_creates_pool e w.scene T v r hs hc
    refine ⟨{ w with scene := s1 }, c, ?_, h2⟩
    unfold World.facade
    rw [he]
    simp only
    rw [h1]

/-- C18 at a concrete input: the entity created by `emplace("Player")`, asked for
type 8, for which the registry has no pool. -/
theorem C18_has_component_pure_witness :
    first_world.entity_at [0] = some first_entity ∧ first_entity.scene_ = some 0 ∧
    ∀ w' b, first_world.query [0] (fun x s => x.has_component s 8) = .ok (w', b) →
      w'.scene = first_world.scene ∧ w'.entities = first_world.entities ∧
      w'.unique_id_ = first_world.unique_id_ :=
  ⟨by decide, by decide,
   (C18_has_component_pure first_world [0] 8 first_entity 0 (by decide) (by decide)).2.1⟩

/-- The id-index of every directory built by the constructor and `emplace` calls
is empty. -/
theorem Entities.reachable_entities_ (d : Entities) (h : Entities.Reachable d) :
    d.entities_ = [] := by
  induction h with
  | ctor scene => rfl
  | emplace d u name _ ih => exact ih
  | emplace_copy d u g entity _ ih => exact ih
  | emplace_move d u g entity _ ih => exact ih

end QueryDestroy

/-! ## Lazy creation of pools -/

section LazyPools

variable {V : Type}

/-- The registry in which the pool for `T` has just been created and, through the
pointer to it, replaced by `pool'`, answers for every other type as the
registry before. -/
theorem ComponentPools.get_created_ne (r : ComponentPools V) (T T' : TypeKey)
    (pool' : ComponentPool V) (h : T' ≠ T) :
    (ComponentPools.store (ComponentPools.mk (Map.insert r.pools_ T ComponentPool.empty))
        T pool').get T' = r.get T' := by
  rw [ComponentPools.get_store_ne _ T T' pool' (Ne.symm h)]
  simp only [ComponentPools.get]
  exact Map.lookup_insert_ne _ T T' _ (Ne.symm h)

/-- The scenes `add_component(T&&)` can end in. -/
theorem Entity.add_component_cases (e : Entity) (s s1 : Scene V) (T : TypeKey) (v c : V)
    (r : SceneRef) (hs : e.scene_ = some r) (h : e.add_component s T v = .ok (s1, c)) :
    (∃ pool pool', s.pools.get T = some pool ∧ pool.add e.id_ v = .ok (pool', c) ∧
      s1.pools = s.pools.store T pool') ∨
    (∃ pool', s.pools.get T = none ∧
      (ComponentPool.empty : ComponentPool V).add e.id_ v = .ok (pool', c) ∧
      s1.pools = ComponentPools.store
        (ComponentPools.mk (Map.insert s.pools.pools_ T ComponentPool.empty)) T pool') := by
  rw [Entity.add_component_eq e s T v r hs] at h
  cases hg : s.pools.get T with
  | some pool =>
    rw [hg] at h
    simp only at h
    cases ha : pool.add e.id_ v with
    | error f => rw [ha] at h; cases h
    | ok res =>
      obtain ⟨pool', c'⟩ := res
      rw [ha] at h
      simp only [Except.ok.injEq, Prod.mk.injEq] at h
      obtain ⟨h1, h2⟩ := h
      subst h1; subst h2
      exact Or.inl ⟨pool, pool', rfl, ha, rfl⟩
  | none =>
    rw [hg] at h
    simp only at h
    cases ha : (ComponentPool.empty : ComponentPool V).add e.id_ v with
    | error f => rw [ha] at h; cases h
    | ok res =>
      obtain ⟨pool', c'⟩ := res
      rw [ha] at h
      simp only [Except.ok.injEq, Prod.mk.injEq] at h
      obtain ⟨h1, h2⟩ := h
      subst h1; subst h2
      exact Or.inr ⟨pool', rfl, rfl, rfl⟩

/-- The scenes `add_component(Args&&...)` can end in. -/
theorem Entity.add_component_args_cases (e : Entity) (s s1 : Scene V) (T : TypeKey) (v c : V)
    (r : SceneRef) (hs : e.scene_ = some r) (h : e.add_component_args s T v = .ok (s1, c)) :
    (∃ pool, s.pools.get T = some pool ∧ pool.has_component e.id_ = true ∧ s1 = s) ∨
    (∃ pool pool', s.pools.get T = some pool ∧ pool.add e.id_ v = .ok (pool', c) ∧
      s1.pools = s.pools.store T pool') ∨
    (∃ pool', s.pools.get T = none ∧
      (ComponentPool.empty : ComponentPool V).add e.id_ v = .ok (pool', c) ∧
      s1.pools = ComponentPools.store
        (ComponentPools.mk (Map.insert s.pools.pools_ T ComponentPool.empty)) T pool') := by
  rw [Entity.add_component_args_eq e s T v r hs] at h
  cases hg : s.pools.get T with
  | some pool =>
    rw [hg] at h
    simp only at h
    cases hh : pool.has_component e.id_ with
    | true =>
      rw [hh] at h
      simp only [if_true] at h
      cases hc : pool.get e.id_ with
      | error f => rw [hc] at h; cases h
      | ok c' =>
        rw [hc] at h
        simp only [Except.ok.injEq, Prod.mk.injEq] at h
        exact Or.inl ⟨pool, rfl, hh, h.1.symm⟩
    | false =>
      rw [hh] at h
      simp only [Bool.false_eq_true, if_false] at h
      cases ha : pool.add e.id_ v with
      | error f => rw [ha] at h; cases h
      | ok res =>
        obtain ⟨pool', c'⟩ := res
        rw [ha] at h
        simp only [Except.ok.injEq, Prod.mk.injEq] at h
        obtain ⟨h1, h2⟩ := h
        subst h1; subst h2
        exact Or.inr (Or.inl ⟨pool, pool', rfl, ha, rfl⟩)
  | none =>
    rw [hg] at h
    simp only at h
    cases ha : (ComponentPool.empty : ComponentPool V).add e.id_ v with
    | error f => rw [ha] at h; cases h
    | ok res =>
      obtain ⟨pool', c'⟩ := res
      rw [ha] at h
      simp only [Except.ok.injEq, Prod.mk.injEq] at h
      obtain ⟨h1, h2⟩ := h
      subst h1; subst h2
      exact Or.inr (Or.inr ⟨pool', rfl, rfl, rfl⟩)

/-- Either overload of `add_component` fails only when the registry already has a
pool for the type, and never with `DuplicatePoolType`. -/
theorem Entity.add_component_error (e : Entity) (s : Scene V) (T : TypeKey) (v : V)
    (r : SceneRef) (hs : e.scene_ = some r) (f : Fault)
    (h : e.add_component s T v = .error f ∨ e.add_component_args s T v = .error f) :
    s.pools.contains T = true ∧ f ≠ .DuplicatePoolType := by
  have hempty := ComponentPool.add_of_not_has (ComponentPool.empty : ComponentPool V) e.id_ v rfl
  rw [Entity.add_component_eq e s T v r hs, Entity.add_component_args_eq e s T v r hs] at h
  rw [ComponentPools.contains_eq]
  cases hg : s.pools.get T with
  | none =>
    rw [hg] at h
    simp only at h
    rw [hempty] at h
    rcases h with h | h <;> cases h
  | some pool =>
    refine ⟨rfl, ?_⟩
    rw [hg] at h
    simp only at h
    cases hh : pool.has_component e.id_ with
    | true =>
      rw [hh, ComponentPool.add_of_has pool e.id_ v hh] at h
      simp only [if_true] at h
      rcases h with h | h
      · simp only [Except.error.injEq] at h
        subst h
        decide
      · cases hc : pool.get e.id_ with
        | ok c => rw [hc] at h; cases h
        | error f' =>
          rw [hc] at h
          simp only [Except.error.injEq] at h
          subst h
          unfold ComponentPool.get at hc
          intro hf
          subst hf
          split at hc
          · cases hc
          · split at hc <;> cases hc
    | false =>
      rw [hh, ComponentPool.add_of_not_has pool e.id_ v hh] at h
      simp only [Bool.false_eq_true, if_false] at h
      rcases h with h | h <;> cases h

/-- C16: `add_component<T>` creates the pool for T lazily and at most once. For
every entity holding a scene reference and every scene: the registry's `add`
is reached only when the registry has no pool for T and then succeeds, so
neither overload fails with `DuplicatePoolType`, and a failing call leaves a
registry that already had the pool; after a successful call the registry has
a pool for T, pools of other types are as before, and a pool for T that
existed before is the pool afterwards, as it was or with the component added
by its strict `add`. -/
theorem C16_pool_created_lazily_once (e : Entity) (s : Scene V) (T : TypeKey) (v : V)
    (r : SceneRef) (hs : e.scene_ = some r) :
    (Entity.ensure_pool s.pools T =
      .ok (if s.pools.contains T = true then s.pools
           else ComponentPools.mk (Map.insert s.pools.pools_ T ComponentPool.empty))) ∧
    e.add_component s T v ≠ .error .DuplicatePoolType ∧
    e.add_component_args s T v ≠ .error .DuplicatePoolType ∧
    (∀ f, (e.add_component s T v = .error f ∨ e.add_component_args s T v = .error f) →
      s.pools.contains T = true) ∧
    (∀ s1 c, (e.add_component s T v = .ok (s1, c) ∨ e.add_component_args s T v = .ok (s1, c)) →
      s1.pools.contains T = true ∧
      (∀ T', T' ≠ T → s1.pools.get T' = s.pools.get T') ∧
      (∀ pool, s.pools.get T = some pool →
        s1.pools.get T = some pool ∨
        ∃ pool' c', pool.add e.id v = .ok (pool', c') ∧ s1.pools.get T = some pool')) := by
  refine ⟨?_, ?_, ?_, ?_, ?_⟩
  · rw [Entity.ensure_pool_eq, ComponentPools.contains_eq]
    cases hg : s.pools.get T <;> simp
  · intro h
    exact (Entity.add_component_error e s T v r hs _ (Or.inl h)).2 rfl
  · intro h
    exact (Entity.add_component_error e s T v r hs _ (Or.inr h)).2 rfl
  · intro f h
    exact (Entity.add_component_error e s T v r hs f h).1
  · intro s1 c h
    have hcases :
        (∃ pool, s.pools.get T = some pool ∧ pool.has_component e.id_ = true ∧ s1 = s) ∨
        (∃ pool pool', s.pools.get T = some pool ∧ pool.add e.id_ v = .ok (pool', c) ∧
          s1.pools = s.pools.store T pool') ∨
        (∃ pool', s.pools.get T = none ∧
          (ComponentPool.empty : ComponentPool V).add e.id_ v = .ok (pool', c) ∧
          s1.pools = ComponentPools.store
            (ComponentPools.mk (Map.insert s.pools.pools_ T ComponentPool.empty)) T pool') := by
      rcases h with h | h
      · exact Or.inr (Entity.add_component_cases e s s1 T v c r hs h)
      · exact Entity.add_component_args_cases e s s1 T v c r hs h
    rcases hcases with ⟨pool, hg, _, h1⟩ | ⟨pool, pool', hg, ha, h1⟩ | ⟨pool', hg, _, h1⟩
    · subst h1
      refine ⟨by rw [ComponentPools.contains_eq, hg]; rfl, fun _ _ => rfl, ?_⟩
      intro p hp
      exact Or.inl hp
    · have hget : s1.pools.get T = some pool' := by
        rw [h1]; exact ComponentPools.get_store _ _ _ _ hg
      refine ⟨by rw [ComponentPools.contains_eq, hget]; rfl, ?_, ?_⟩
      · intro T' hne
        rw [h1]
        exact ComponentPools.get_store_ne _ T T' pool' (Ne.symm hne)
      · intro p hp
        rw [hg] at hp
        simp only [Option.some.injEq] at hp
        subst hp
        exact Or.inr ⟨pool', c, ha, hget⟩
    · have hget : s1.pools.get T = some pool' := by
        rw [h1]
        exact ComponentPools.get_store _ _ ComponentPool.empty _
          (by simp [ComponentPools.get, Map.lookup_insert_self])
      refine ⟨by rw [ComponentPools.contains_eq, hget]; rfl, ?_, ?_⟩
      · intro T' hne
        rw [h1]
        exact ComponentPools.get_created_ne _ T T' pool' hne
      · intro p hp
        rw [hg] at hp
        cases hp

/-- C16 at a concrete input: the first entity attaches a component of type 8 in
the scene that has a pool for type 7 only. -/
theorem C16_pool_created_lazily_once_witness :
    first_entity.scene_ = some 0 ∧
    first_entity.add_component populated_scene 8 5 ≠ .error .DuplicatePoolType ∧
    ∀ s1 c, (first_entity.add_component populated_scene 8 5 = .ok (s1, c) ∨
        first_entity.add_component_args populated_scene 8 5 = .ok (s1, c)) →
      s1.pools.contains 8 = true ∧
      (∀ T', T' ≠ 8 → s1.pools.get T' = populated_scene.pools.get T') ∧
      (∀ pool, populated_scene.pools.get 8 = some pool →
        s1.pools.get 8 = some pool ∨
        ∃ pool' c', pool.add first_entity.id 5 = .ok (pool', c') ∧
          s1.pools.get 8 = some pool') :=
  ⟨by decide,
   (C16_pool_created_lazily_once first_entity populated_scene 8 5 0 (by decide)).2.1,
   (C16_pool_created_lazily_once first_entity populated_scene 8 5 0 (by decide)).2.2.2.2⟩

end LazyPools

/-! ## Depth of created entities -/

section Depth

/-- After `child` has been appended under the node at `p`, it is the last child of
that node. -/
theorem node_at_push_child (child : Node) :
    ∀ (p : Reference) (ns : List Node) (parent : Node), node_at ns p = some parent →
      node_at (push_child child ns p) (p ++ [parent.children.length]) = some child
  | [], ns, parent, h => by simp [node_at] at h
  | [i], ns, parent, h => by
    simp only [node_at] at h
    simp only [push_child, h, List.cons_append, List.nil_append, node_at]
    rw [List.getElem?_set_self (getElem?_lt_of_some ns i parent h)]
    simp [Node.children]
  | i :: j :: rest, ns, parent, h => by
    simp only [node_at] at h
    cases hn : ns[i]? with
    | none => rw [hn] at h; cases h
    | some n =>
      rw [hn] at h
      simp only at h
      have ih := node_at_push_child child (j :: rest) n.children parent h
      simp only [push_child, hn, List.cons_append, node_at]
      rw [List.getElem?_set_self (getElem?_lt_of_some ns i n hn)]
      simp only [List.cons_append] at ih
      exact ih

/-- What a successful `Children<Entity>::emplace_back()` returns: the node built
by the node constructor, in the tree at the reference returned; with a parent,
the reference is the one of the parent's new last child, and the parent is in
the tree before; without, the node follows the root-level nodes. -/
theorem Children.emplace_back_ok (construct : Int → SceneRef → Entity × Int) (tree_ : Tree)
    (parent_ : Option Reference) (u : Int) (p : Placed)
    (h : Children.emplace_back construct tree_ parent_ u = .ok p) :
    (∃ scene, p.node = Node.mk (construct u scene).1 []) ∧
    node_at p.tree.children_ p.ref = some p.node ∧
    (∀ q, parent_ = some q → ∃ parent, node_at tree_.children_ q = some parent ∧
      p.ref = q ++ [parent.children.length]) ∧
    (parent_ = none → p.ref = [tree_.children_.length] ∧
      p.tree.children_ = tree_.children_ ++ [p.node]) := by
  unfold Children.emplace_back at h
  cases parent_ with
  | none =>
    simp only [Except.ok.injEq] at h
    subst h
    refine ⟨⟨_, rfl⟩, ?_, ?_, fun _ => ⟨rfl, rfl⟩⟩
    · simp [node_at]
    · intro q hq; cases hq
  | some q =>
    simp only at h
    cases hn : node_at tree_.children_ q with
    | none => rw [hn] at h; cases h
    | some parent =>
      rw [hn] at h
      simp only at h
      cases hs : parent.get.scene with
      | error f => rw [hs] at h; cases h
      | ok scene =>
        rw [hs] at h
        simp only [Except.ok.injEq] at h
        subst h
        refine ⟨⟨scene, rfl⟩, ?_, ?_, fun hc => by cases hc⟩
        · exact node_at_push_child _ q tree_.children_ parent hn
        · intro q' hq'
          simp only [Option.some.injEq] at hq'
          subst hq'
          exact ⟨parent, hn, rfl⟩

/-- The tree after `emplace(name)`: the root-level nodes as before, followed by the
node created. -/
theorem Entities.emplace_tree (d : Entities) (u : Int) (name : String) :
    (d.emplace u name).entities.tree_.children_
      = d.tree_.children_ ++ [(d.emplace u name).node] := rfl

/-- Every constructor of `Entity` leaves `depth_` at its default initialiser. -/
theorem Entity.depth_after_construction (u g : Int) (scene : SceneRef) (name : String)
    (src : Entity) :
    (Entity.Entity_scene_name u scene name).1.depth = 0 ∧
    (Entity.Entity_scene_copy u scene src).1.depth = 0 ∧
    (Entity.Entity_scene_move u scene src).1.depth = 0 ∧
    (Entity.Entity_scene u scene).1.depth = 0 ∧
    (Entity.Entity_move g src).depth = 0 ∧
    (Entity.Entity_copy g src).depth = 0 :=
  ⟨rfl, rfl, rfl, rfl, rfl, rfl⟩

/-- C14, as the code behaves: nothing in the sources writes `depth_`, which is
private, has no setter and starts at 0. Under the root-level node created by
`emplace("Player")`, whose entity has depth 0, `Children<Entity>::emplace_back()`
hands the parent to the node constructor and creates the parent's child, and
the child's entity has depth 0, not the parent's depth plus 1; this with
either constructor of `Entity` that takes the scene alone. In every tree and
under every parent the entity of the created child has depth 0. Entities
created at root level have depth 0, as the claim says. -/
theorem C14_child_depth_stays_zero :
    (∃ p parent, Children.emplace_back Entity.Entity_scene one_root_tree (some [0]) 1 = .ok p ∧
      entity_at one_root_tree.children_ [0] = some parent ∧
      p.ref = [0, 0] ∧
      entity_at p.tree.children_ [0, 0] = some p.node.get ∧
      parent.depth = 0 ∧
      p.node.get.depth = 0 ∧
      p.node.get.depth ≠ parent.depth + 1) ∧
    (∃ p parent,
      Children.emplace_back Entity.Entity_scene_unnamed one_root_tree (some [0]) 1 = .ok p ∧
      entity_at one_root_tree.children_ [0] = some parent ∧
      p.ref = [0, 0] ∧
      entity_at p.tree.children_ [0, 0] = some p.node.get ∧
      parent.depth = 0 ∧
      p.node.get.depth = 0 ∧
      p.node.get.depth ≠ parent.depth + 1) ∧
    (∀ (construct : Int → SceneRef → Entity × Int),
      (construct = Entity.Entity_scene ∨ construct = Entity.Entity_scene_unnamed) →
      ∀ (tree_ : Tree) (parent_ : Option Reference) (u : Int) (p : Placed),
        Children.emplace_back construct tree_ parent_ u = .ok p →
        p.node.get.depth = 0 ∧
        node_at p.tree.children_ p.ref = some p.node ∧
        (∀ q, parent_ = some q → ∃ parent, node_at tree_.children_ q = some parent ∧
          p.ref = q ++ [parent.children.length])) ∧
    (∀ (d : Entities) (c : Int) (name : String),
      (d.emplace c name).node.get.depth = 0 ∧
      (d.emplace c name).entities.tree_.children_
        = d.tree_.children_ ++ [(d.emplace c name).node]) := by
  refine ⟨⟨_, _, rfl, rfl, rfl, rfl, rfl, rfl, by decide⟩,
    ⟨_, _, rfl, rfl, rfl, rfl, rfl, rfl, by decide⟩, ?_, fun _ _ _ => ⟨rfl, rfl⟩⟩
  intro construct hc tree_ parent_ u p h
  obtain ⟨⟨scene, h1⟩, h2, h3, _⟩ := Children.emplace_back_ok construct tree_ parent_ u p h
  refine ⟨?_, h2, h3⟩
  rw [h1]
  rcases hc with hc | hc <;> subst hc <;> rfl

end Depth

end Corgi
